import Mathlib

set_option maxRecDepth 8000

/-!
# Verification of the agentfox request pipeline

A shallow embedding, in Lean 4, of the core of the agentfox repository:

* the length-prefixed frame codec used on the IPC socket
  (`encodeFrame` / `FrameDecoder` in the server's `ipc.ts`),
* the IPC broker's pending-command table (`IpcServer.sendCommand` /
  `IpcServer.handleMessage`),
* the MCP tool gateway's connection-wait logic (`index.ts`),
* the native-messaging relay's stdin read loop (`native-host.ts`),
* the content script's accessibility-tree builder, reference map and
  action handlers (`content-handlers.ts`).

Messages travelling through the codec are represented by their serialized
payload byte sequences (the image of the platform's `JSON.stringify`, a
bijection onto the message domain inverted by `JSON.parse`); bytes are
natural numbers.  Mutable module-level state (`refMap`, `refCounter`,
`nodeCount`, the broker's `pending` map) is threaded explicitly.
-/

namespace Agentfox

/-! ## Frame codec (server `ipc.ts`, big-endian IPC dialect)

`encodeFrame` writes a 4-byte big-endian length followed by the payload.
`FrameDecoder.push` appends a chunk to an internal buffer and greedily
extracts complete frames, raising an error if a declared length exceeds
the 64 MB cap and carrying over any trailing partial frame. -/

/-- The IPC dialect's frame-size cap: 64 MB (`64 * 1024 * 1024` in `ipc.ts`). -/
def IPC_FRAME_CAP : Nat := 64 * 1024 * 1024

/-- Model of `Buffer.writeUInt32BE`: the four big-endian bytes of `n` (for `n < 2^32`). -/
def writeUInt32BE (n : Nat) : List Nat :=
  [n / 2 ^ 24 % 256, n / 2 ^ 16 % 256, n / 2 ^ 8 % 256, n % 256]

/-- Model of `Buffer.readUInt32BE(0)`: read the first four bytes as a big-endian 32-bit
integer.  Callers guard `b.length ≥ 4`; out-of-range reads default to 0. -/
def readUInt32BE (b : List Nat) : Nat :=
  (b.getD 0 0) * 2 ^ 24 + (b.getD 1 0) * 2 ^ 16 + (b.getD 2 0) * 2 ^ 8 + b.getD 3 0

/-- Model of `encodeFrame(message)`: length-prefixed frame around the serialized payload
(`[4 bytes uint32 BE length][N bytes JSON payload]`). -/
def encodeFrame (payload : List Nat) : List Nat :=
  writeUInt32BE payload.length ++ payload

/-- One fuelled unrolling of the greedy extraction loop of
`FrameDecoder.push`: repeatedly read a 4-byte big-endian length, fail if it
exceeds the 64 MB cap, stop if the buffer does not yet hold the full frame,
otherwise emit the payload and continue on the rest.  Each iteration consumes
at least four bytes, so fuel `b.length` strictly bounds the iteration count;
`decodeLoop` below instantiates the fuel accordingly. -/
def decodeAux : Nat → List Nat → Except String (List (List Nat) × List Nat)
  | 0, b => .ok ([], b)
  | fuel + 1, b =>
    if 4 ≤ b.length then
      let len := readUInt32BE b
      if IPC_FRAME_CAP < len then
        .error s!"Frame too large: {len} bytes"
      else if 4 + len ≤ b.length then
        match decodeAux fuel (b.drop (4 + len)) with
        | .ok (msgs, rest) => .ok (((b.drop 4).take len) :: msgs, rest)
        | .error e => .error e
      else
        .ok ([], b)
    else
      .ok ([], b)

/-- The extraction loop of `FrameDecoder.push`: emitted payloads plus the
leftover partial frame, or the oversize error. -/
def decodeLoop (b : List Nat) : Except String (List (List Nat) × List Nat) :=
  decodeAux b.length b

/-- The `FrameDecoder`'s state is its internal carry-over buffer. -/
structure FrameDecoder where
  buffer : List Nat
deriving Repr

/-- A fresh decoder (`new FrameDecoder()` / `reset()`). -/
def FrameDecoder.empty : FrameDecoder := ⟨[]⟩

/-- Model of `FrameDecoder.push(data)`: append `data` to the buffer and extract all
complete messages, returning them together with the updated decoder. -/
def FrameDecoder.push (d : FrameDecoder) (data : List Nat) :
    Except String (List (List Nat) × FrameDecoder) :=
  match decodeLoop (d.buffer ++ data) with
  | .ok (msgs, rest) => .ok (msgs, ⟨rest⟩)
  | .error e => .error e

/-- Push a sequence of chunks through a decoder, accumulating the messages
emitted by each push (the socket `data` handler in `ipc.ts`). -/
def FrameDecoder.pushAll (d : FrameDecoder) :
    List (List Nat) → Except String (List (List Nat) × FrameDecoder)
  | [] => .ok ([], d)
  | c :: cs =>
    match d.push c with
    | .ok (msgs, d') =>
      match d'.pushAll cs with
      | .ok (msgs', d'') => .ok (msgs ++ msgs', d'')
      | .error e => .error e
    | .error e => .error e

/-! ## IPC broker: the pending-command table (`IpcServer` in `ipc.ts`)

`sendCommand` installs a pending entry keyed by the command's correlation ID
together with a timer, then writes the framed command to the client socket.
Five paths consume a pending entry, and each settles the command's promise as
it removes the entry: a `response` envelope with the matching ID
(`handleMessage`, which clears the timer, deletes the entry and resolves);
the timer firing (which deletes the entry and rejects with a timeout error);
the `socket.write` completion callback firing with an error (which clears the
timer, deletes the entry and rejects with the write error); the client socket
closing (which clears every timer, rejects every pending entry with a
disconnect error and clears the table); and `close()` (which clears every
timer, rejects every pending entry with an "IPC server closing" error and
clears the table).  Every removal path settles the promise and every settling
path removes the entry, and a JS promise settles at most once, so a consuming
event delivers an outcome exactly when the entry is still present; we model
this by making a consuming event for an absent ID a no-op.  A `response`
whose ID has no pending entry is dropped without any effect (`if (pending)`
guard). -/

/-- Events affecting the broker's pending table. -/
inductive BrokerEvent where
  | response (id : String)
  | timeout (id : String)
  | writeError (id : String)
  | disconnect
  | serverClose
deriving Repr, DecidableEq

/-- The five deliverable outcomes of a submitted command: resolution with the
matching response, timeout rejection, disconnect rejection, write-error
rejection (the `socket.write` callback), and server-closing rejection
(`close()`). -/
inductive Outcome where
  | resolved (id : String)
  | timedOut (id : String)
  | disconnected (id : String)
  | writeFailed (id : String)
  | serverClosing (id : String)
deriving Repr, DecidableEq

/-- Correlation ID of an outcome. -/
def Outcome.cid : Outcome → String
  | .resolved i => i
  | .timedOut i => i
  | .disconnected i => i
  | .writeFailed i => i
  | .serverClosing i => i

/-- Whether an outcome is one of the three kinds named by the spec's
exactly-once sentence — a matching response, a timeout rejection or a
disconnect rejection — as opposed to a write-error or server-closing
rejection. -/
def Outcome.isRespTimeoutDisc : Outcome → Bool
  | .resolved _ => true
  | .timedOut _ => true
  | .disconnected _ => true
  | .writeFailed _ => false
  | .serverClosing _ => false

/-- The broker's state: the keys of the `pending` map. -/
structure BrokerState where
  pending : List String
deriving Repr, DecidableEq

/-- Model of `sendCommand` (with a client attached): install a pending entry
for the command's ID and start the frame write.  The write's completion
callback is asynchronous; its error branch (which deletes the entry and
rejects with the write error) is the `writeError` event of `brokerStep`. -/
def sendCommand (st : BrokerState) (i : String) : BrokerState :=
  ⟨st.pending ++ [i]⟩

/-- One broker event: the state update and the outcomes it delivers. -/
def brokerStep (st : BrokerState) : BrokerEvent → BrokerState × List Outcome
  | .response i =>
    if i ∈ st.pending then (⟨st.pending.filter (· ≠ i)⟩, [.resolved i])
    else (st, [])
  | .timeout i =>
    if i ∈ st.pending then (⟨st.pending.filter (· ≠ i)⟩, [.timedOut i])
    else (st, [])
  | .writeError i =>
    if i ∈ st.pending then (⟨st.pending.filter (· ≠ i)⟩, [.writeFailed i])
    else (st, [])
  | .disconnect => (⟨[]⟩, st.pending.map .disconnected)
  | .serverClose => (⟨[]⟩, st.pending.map .serverClosing)

/-- Run a sequence of broker events, accumulating delivered outcomes. -/
def brokerRun (st : BrokerState) : List BrokerEvent → BrokerState × List Outcome
  | [] => (st, [])
  | e :: es =>
    let s1 := brokerStep st e
    let s2 := brokerRun s1.1 es
    (s2.1, s1.2 ++ s2.2)

/-- Number of outcomes delivered for a given correlation ID. -/
def outcomesFor (i : String) (l : List Outcome) : Nat :=
  (l.filter (fun o => o.cid = i)).length

/-- Number of delivered outcomes for an ID that are of the three kinds named
by the spec's exactly-once sentence (response, timeout, disconnect). -/
def threeOutcomesFor (i : String) (l : List Outcome) : Nat :=
  (l.filter (fun o => o.cid = i && o.isRespTimeoutDisc)).length

/-- Multiplicity of an ID among the pending keys. -/
def idCount (i : String) (l : List String) : Nat :=
  (l.filter (fun x => x = i)).length

/-! ## MCP tool gateway (`index.ts`)

The `CallToolRequestSchema` handler looks up the tool by name; if not found
it returns a visible error.  If no client is attached it awaits
`waitForConnection(CONNECTION_WAIT_MS)` (which resolves immediately when a
client is already attached); if the wait times out it returns one of two
distinct visible error messages chosen by `ipcServer.hasEverConnected`.
Otherwise it assigns a fresh correlation ID and submits the command. -/

/-- Model of `CONNECTION_WAIT_MS` in `index.ts`. -/
def CONNECTION_WAIT_MS : Nat := 5000

/-- The gateway-visible state of the IPC server. -/
structure GatewayState where
  connected : Bool
  hasEverConnected : Bool
deriving Repr, DecidableEq

/-- Outcome of the tools/call handler before the command round trip. -/
inductive ToolCallOutcome where
  | errorText (msg : String)
  | commandSubmitted
deriving Repr, DecidableEq

/-- The "was connected, then lost" message in `index.ts`. -/
def disconnectedMessage : String :=
  "Browser extension disconnected. The Firefox extension or native messaging host may have stopped."

/-- The "never connected" message in `index.ts`. -/
def notConnectedMessage : String :=
  "Browser extension is not connected. Make sure Firefox is running with the Agent Fox extension installed."

/-- The tools/call handler up to command submission.  `connectsWithinWait`
records whether a client attaches during the `CONNECTION_WAIT_MS` window;
`waitForConnection` resolves immediately when `st.connected` already holds. -/
def callToolHandler (toolKnown : Bool) (st : GatewayState)
    (connectsWithinWait : Bool) (toolName : String) : ToolCallOutcome :=
  if !toolKnown then
    .errorText s!"Unknown tool: {toolName}"
  else if !st.connected && !connectsWithinWait then
    .errorText (if st.hasEverConnected then disconnectedMessage else notConnectedMessage)
  else
    .commandSubmitted

/-! ## Native-messaging relay: the stdin read loop (`native-host.ts`)

`readNativeMessages` accumulates stdin chunks in a buffer and extracts
little-endian length-prefixed frames.  A declared length over the 1 MB cap
makes the generator `throw` (the `for await` loop in `main` stops, its
`catch` logs, and control falls through to `shutdown`).  A payload that fails
`JSON.parse` is logged and skipped, and extraction continues.  `main` relays
each yielded message that carries an `id`.  The payload parser (the
platform's `JSON.parse` composed with UTF-8 decoding) is a parameter. -/

/-- The native dialect's 1 MB cap (`1024 * 1024` in `native-host.ts`). -/
def NATIVE_MESSAGE_CAP : Nat := 1024 * 1024

/-- Model of `Buffer.readUInt32LE(0)`. -/
def readUInt32LE (b : List Nat) : Nat :=
  b.getD 0 0 + (b.getD 1 0) * 2 ^ 8 + (b.getD 2 0) * 2 ^ 16 + (b.getD 3 0) * 2 ^ 24

/-- Model of `Buffer.writeUInt32LE`: the four little-endian bytes of `n`. -/
def writeUInt32LE (n : Nat) : List Nat :=
  [n % 256, n / 2 ^ 8 % 256, n / 2 ^ 16 % 256, n / 2 ^ 24 % 256]

/-- Model of `writeNativeMessage`'s framing: 4-byte little-endian length prefix. -/
def encodeNativeFrame (payload : List Nat) : List Nat :=
  writeUInt32LE payload.length ++ payload

/-- The inner `while` of `readNativeMessages` on one buffer: yielded messages,
leftover buffer, and the oversize error if one was thrown.  Parse failures
are skipped and extraction continues.  Fuel as in `decodeAux`. -/
def nativeDrain {μ : Type} (parse : List Nat → Option μ) :
    Nat → List Nat → List μ × List Nat × Option String
  | 0, b => ([], b, none)
  | fuel + 1, b =>
    if 4 ≤ b.length then
      let len := readUInt32LE b
      if NATIVE_MESSAGE_CAP < len then
        ([], b, some s!"Native message length {len} exceeds 1MB limit")
      else if 4 + len ≤ b.length then
        let rec_ := nativeDrain parse fuel (b.drop (4 + len))
        match parse ((b.drop 4).take len) with
        | some m => (m :: rec_.1, rec_.2.1, rec_.2.2)
        | none => rec_
      else
        ([], b, none)
    else
      ([], b, none)

/-- The drain loop with sufficient fuel. -/
def nativeDrainLoop {μ : Type} (parse : List Nat → Option μ) (b : List Nat) :
    List μ × List Nat × Option String :=
  nativeDrain parse b.length b

/-- The chunk loop of `readNativeMessages`: thread the carry-over buffer
through the chunks; an oversize error aborts the generator, so remaining
chunks are never read.  At end of stream any partial frame is discarded. -/
def readNativeChunks {μ : Type} (parse : List Nat → Option μ) :
    List Nat → List (List Nat) → List μ × Option String
  | _, [] => ([], none)
  | buf, c :: cs =>
    let d := nativeDrainLoop parse (buf ++ c)
    match d.2.2 with
    | some e => (d.1, some e)
    | none =>
      let k := readNativeChunks parse d.2.1 cs
      (d.1 ++ k.1, k.2)

/-- Model of `readNativeMessages(stdin)`: all messages yielded, plus the framing error
that terminated the generator, if any. -/
def readNativeMessages {μ : Type} (parse : List Nat → Option μ) (chunks : List (List Nat)) :
    List μ × Option String :=
  readNativeChunks parse [] chunks

/-- The stdin-to-IPC relay loop of `main`: messages with an `id` are relayed;
the second component records whether a framing error aborted the read loop
(after which `main` proceeds to `shutdown` and the process exits). -/
def relayStdinLoop {μ : Type} (parse : List Nat → Option μ) (hasId : μ → Bool)
    (chunks : List (List Nat)) : List μ × Bool :=
  let r := readNativeMessages parse chunks
  (r.1.filter hasId, r.2.isSome)

/-! ## Content script: DOM model (`content-handlers.ts`)

The content handlers read the DOM through a fixed API surface: `tagName`,
`getAttribute`, inline `style`, `offsetParent` plus `getComputedStyle`,
element properties (`type`, `value`, `checked`, `disabled`, `multiple`,
`selected`, `required`, `files`), `childNodes` / `textContent`, and the
document-global lookups `getElementById`, `querySelector('label[for=…]')`
and `closest('label')`.  An element is modelled as a node carrying those
observations; the global lookups are a `DocEnv` (for `getElementById` and
the `label[for]` query) and a per-element `closestLabel` field (the result
of `el.closest('label')`). -/

/-- JS `String.prototype.trim()`: strip leading and trailing whitespace
(modelled on the character list underlying the string, so that it evaluates
inside the kernel). -/
def jsTrim (s : String) : String :=
  ⟨((s.data.dropWhile Char.isWhitespace).reverse.dropWhile Char.isWhitespace).reverse⟩

/-- JS `String.prototype.slice(0, n)` on the character list. -/
def jsTake (s : String) (n : Nat) : String :=
  ⟨s.data.take n⟩

/-- One field of a JS `split(/\s+/)`: fuelled splitter over a character
list; each step consumes at least one character, so length-many steps
suffice. -/
def splitWsAux : Nat → List Char → List (List Char)
  | _, [] => [[]]
  | 0, cs => [cs]
  | fuel + 1, cs =>
    let field := cs.takeWhile (fun c => !c.isWhitespace)
    let rest := cs.dropWhile (fun c => !c.isWhitespace)
    match rest with
    | [] => [field]
    | _ :: _ => field :: splitWsAux fuel (rest.dropWhile Char.isWhitespace)

/-- JS `String.prototype.split(/\s+/)`: fields separated by maximal
whitespace runs (a leading run contributes a leading empty field). -/
def jsSplitWs (s : String) : List String :=
  (splitWsAux s.data.length s.data).map (fun cs => ⟨cs⟩)

/-- Scalar data of a DOM element, as observed through the DOM API. -/
structure ElemCore where
  tagName : String
  attrs : List (String × String)
  styleDisplay : String := ""
  styleVisibility : String := ""
  offsetParentIsNull : Bool := false
  computedDisplay : String := ""
  computedVisibility : String := ""
  isHTMLElement : Bool := true
  typeProp : String := ""
  valueProp : String := ""
  checkedProp : Bool := false
  disabledProp : Bool := false
  requiredProp : Bool := false
  multipleProp : Bool := false
  selectedProp : Bool := false
  filesCount : Nat := 0
deriving Repr

/-- A DOM node: a text node or an element with its scalar data, the result
of `el.closest('label')`, and its child nodes in document order. -/
inductive DomNode where
  | text (s : String)
  | elem (core : ElemCore) (closestLabel : Option DomNode) (children : List DomNode)
deriving Repr

/-- Model of `getAttribute`. -/
def ElemCore.getAttr (c : ElemCore) (k : String) : Option String :=
  (c.attrs.find? (fun p => p.1 = k)).map (·.2)

/-- Model of `hasAttribute`. -/
def ElemCore.hasAttr (c : ElemCore) (k : String) : Bool :=
  (c.getAttr k).isSome

/-- JS truthiness of `getAttribute`'s result (`null` and `""` are falsy). -/
def ElemCore.attrTruthy (c : ElemCore) (k : String) : Bool :=
  match c.getAttr k with
  | some v => v ≠ ""
  | none => false

mutual

/-- Model of `textContent`: concatenation of all descendant text nodes. -/
def DomNode.textContent : DomNode → String
  | .text s => s
  | .elem _ _ children => textContentList children

/-- Model of `textContent` over a child list. -/
def textContentList : List DomNode → String
  | [] => ""
  | c :: cs => c.textContent ++ textContentList cs

end

/-- Document-global lookups used by the name computation. -/
structure DocEnv where
  /-- Model of `document.getElementById(id)?.textContent` (`none`: no such element). -/
  byId : String → Option String
  /-- the element found by `document.querySelector('label[for="id"]')`. -/
  labelFor : String → Option DomNode

/-- Model of `getTextById`: trimmed text of the element with the given ID, else `''`. -/
def getTextById (env : DocEnv) (id : String) : String :=
  match env.byId id with
  | some t => jsTrim t
  | none => ""

/-- Model of `SKIP_TAGS`. -/
def SKIP_TAGS : List String :=
  ["SCRIPT", "STYLE", "NOSCRIPT", "TEMPLATE", "SVG", "IFRAME"]

/-- Model of `TAG_ROLE_MAP`. -/
def TAG_ROLE_MAP : List (String × String) :=
  [("BUTTON", "button"), ("NAV", "navigation"), ("MAIN", "main"),
   ("ASIDE", "complementary"), ("FOOTER", "contentinfo"), ("HEADER", "banner"),
   ("FORM", "form"), ("TABLE", "table"), ("TR", "row"), ("TD", "cell"),
   ("TH", "columnheader"), ("UL", "list"), ("OL", "list"), ("LI", "listitem"),
   ("DIALOG", "dialog"), ("IMG", "img"), ("OPTION", "option")]

/-- Model of `INPUT_TYPE_ROLE_MAP`. -/
def INPUT_TYPE_ROLE_MAP : List (String × String) :=
  [("text", "textbox"), ("search", "searchbox"), ("email", "textbox"),
   ("url", "textbox"), ("tel", "textbox"), ("password", "textbox"),
   ("number", "spinbutton"), ("range", "slider"), ("checkbox", "checkbox"),
   ("radio", "radio"), ("submit", "button"), ("reset", "button"),
   ("button", "button"), ("image", "button"), ("file", "button")]

/-- Model of `GENERIC_TAGS`. -/
def GENERIC_TAGS : List String := ["DIV", "SPAN"]

/-- Model of `INTERACTIVE_ROLES`. -/
def INTERACTIVE_ROLES : List String :=
  ["button", "link", "checkbox", "radio", "textbox", "combobox", "slider",
   "switch", "tab", "menuitem", "menuitemcheckbox", "menuitemradio", "option",
   "treeitem", "searchbox", "spinbutton"]

/-- Model of `isHidden`: `hidden` attribute, `aria-hidden="true"`, inline
`display:none` / `visibility:hidden`, and — for HTML elements other than
`BODY` with no offset parent — computed `display:none` / `visibility:hidden`. -/
def isHidden (c : ElemCore) : Bool :=
  if c.hasAttr "hidden" then true
  else if c.getAttr "aria-hidden" == some "true" then true
  else if c.isHTMLElement then
    if c.styleDisplay == "none" || c.styleVisibility == "hidden" then true
    else if c.offsetParentIsNull && c.tagName != "BODY" then
      c.computedDisplay == "none" || c.computedVisibility == "hidden"
    else false
  else false

/-- The heading-tag test `/^H[1-6]$/`. -/
def isHeadingTag (t : String) : Bool :=
  ["H1", "H2", "H3", "H4", "H5", "H6"].contains t

/-- Model of `getRole`. -/
def getRole (c : ElemCore) : String :=
  match c.getAttr "role" with
  | some r =>
    if r ≠ "" then r
    else getRoleFromTag c
  | none => getRoleFromTag c
where
  getRoleFromTag (c : ElemCore) : String :=
    let tag := c.tagName
    if isHeadingTag tag then "heading"
    else if tag = "A" then (if c.hasAttr "href" then "link" else "generic")
    else if tag = "INPUT" then
      let inputType := if c.typeProp = "" then "text" else c.typeProp
      match INPUT_TYPE_ROLE_MAP.find? (fun p => p.1 = inputType) with
      | some p => p.2
      | none => "textbox"
    else if tag = "TEXTAREA" then "textbox"
    else if tag = "SELECT" then (if c.multipleProp then "listbox" else "combobox")
    else if tag = "SECTION" then
      (if c.hasAttr "aria-label" || c.hasAttr "aria-labelledby" then "region" else "generic")
    else if tag = "ARTICLE" then "article"
    else
      match TAG_ROLE_MAP.find? (fun p => p.1 = tag) with
      | some p => p.2
      | none => "generic"

/-- JS `parseInt(s, 10)`: skip leading whitespace, optional sign, then
digits; `NaN` (here `none`) when no digit follows. -/
def parseIntJS (s : String) : Option Int :=
  let cs := s.toList.dropWhile (·.isWhitespace)
  match cs with
  | '-' :: rest => (digitsVal rest).map (fun n => -(n : Int))
  | '+' :: rest => (digitsVal rest).map (fun n => (n : Int))
  | rest => (digitsVal rest).map (fun n => (n : Int))
where
  digitsVal (cs : List Char) : Option Nat :=
    let ds := cs.takeWhile (·.isDigit)
    if ds.isEmpty then none
    else some (ds.foldl (fun a c => a * 10 + (c.toNat - 48)) 0)

/-- Model of `isInteractive`. -/
def isInteractive (c : ElemCore) : Bool :=
  let tag := c.tagName
  if tag = "A" || tag = "BUTTON" || tag = "INPUT" || tag = "TEXTAREA" ||
      tag = "SELECT" then true
  else if c.hasAttr "onclick" || c.hasAttr "onmousedown" then true
  else if c.getAttr "contenteditable" == some "true" then true
  else
    let tabidx : Bool := match c.getAttr "tabindex" with
      | some t => (match parseIntJS t with | some v => decide (v ≥ 0) | none => false)
      | none => false
    if tabidx then true
    else
      match c.getAttr "role" with
      | some r => INTERACTIVE_ROLES.contains r
      | none => false

mutual

/-- Model of `getTextExcludingFormElements`: text content of a label, skipping
`INPUT`/`SELECT`/`TEXTAREA` descendants; the result is trimmed. -/
def getTextExcludingFormElements : DomNode → String
  | .text _ => ""
  | .elem _ _ children => jsTrim (gtefList children)

/-- The child loop of `getTextExcludingFormElements`. -/
def gtefList : List DomNode → String
  | [] => ""
  | .text s :: rest => s ++ gtefList rest
  | .elem c lbl ch :: rest =>
    (if c.tagName = "INPUT" || c.tagName = "SELECT" || c.tagName = "TEXTAREA" then ""
     else getTextExcludingFormElements (.elem c lbl ch)) ++ gtefList rest

end

/-- Model of `findAssociatedLabel`: a `label[for=id]` target first, else the text of
the closest wrapping label. -/
def findAssociatedLabel (env : DocEnv) (c : ElemCore)
    (closestLabel : Option DomNode) : String :=
  let byFor : Option String :=
    match c.getAttr "id" with
    | some id =>
      if id ≠ "" then (env.labelFor id).map (fun lbl => jsTrim lbl.textContent)
      else none
    | none => none
  match byFor with
  | some t => t
  | none =>
    match closestLabel with
    | some lbl => getTextExcludingFormElements lbl
    | none => ""

/-- Splitting on `/\s+/` followed by mapping `getTextById` and dropping
falsy results, as in the `aria-labelledby` and `aria-describedby` paths. -/
def labelledByText (env : DocEnv) (ids : String) : String :=
  let parts := (jsSplitWs ids).map (getTextById env)
  String.intercalate " " (parts.filter (fun t => t ≠ ""))

/-- Tags whose accessible name may come from text content (step 6 of
`getAccessibleName`). -/
def contentNamingTag (t : String) : Bool :=
  t = "A" || t = "BUTTON" || t = "H1" || t = "H2" || t = "H3" || t = "H4" ||
  t = "H5" || t = "H6" || t = "LABEL" || t = "LEGEND" || t = "OPTION" ||
  t = "LI" || t = "TD" || t = "TH"

/-- Model of `getAccessibleName`, in the source's priority order. -/
def getAccessibleName (env : DocEnv) (n : DomNode) : String :=
  match n with
  | .text _ => ""
  | .elem c closestLabel _ =>
    let tag := c.tagName
    let step6 : String :=
      if contentNamingTag tag || c.getAttr "role" == some "button" ||
          c.getAttr "role" == some "link" then
        let text := jsTrim n.textContent
        if text.length > 200 then jsTake text 200 ++ "..."
        else if text ≠ "" then text
        else step7 c
      else step7 c
    match c.getAttr "aria-label" with
    | some al =>
      if al ≠ "" then jsTrim al
      else afterAriaLabel env c closestLabel tag step6
    | none => afterAriaLabel env c closestLabel tag step6
where
  afterAriaLabel (env : DocEnv) (c : ElemCore) (closestLabel : Option DomNode)
      (tag : String) (step6 : String) : String :=
    let fromLabelledBy : Option String :=
      match c.getAttr "aria-labelledby" with
      | some lb =>
        if lb ≠ "" then
          let text := labelledByText env lb
          if text ≠ "" then some text else none
        else none
      | none => none
    match fromLabelledBy with
    | some t => t
    | none =>
      let fromLabel : Option String :=
        if tag = "INPUT" || tag = "TEXTAREA" || tag = "SELECT" then
          let lt := findAssociatedLabel env c closestLabel
          if lt ≠ "" then some lt else none
        else none
      match fromLabel with
      | some t => t
      | none =>
        if tag = "IMG" then
          match c.getAttr "alt" with
          | some alt => jsTrim alt
          | none => afterAlt c tag step6
        else afterAlt c tag step6
  afterAlt (c : ElemCore) (_tag : String) (step6 : String) : String :=
    match c.getAttr "title" with
    | some ti => if ti ≠ "" then jsTrim ti else step6
    | none => step6
  step7 (c : ElemCore) : String :=
    let tag := c.tagName
    let fromPlaceholder : Option String :=
      if tag = "INPUT" || tag = "TEXTAREA" then
        match c.getAttr "placeholder" with
        | some p => if p ≠ "" then some (jsTrim p) else none
        | none => none
      else none
    match fromPlaceholder with
    | some t => t
    | none =>
      if tag = "INPUT" &&
          (c.typeProp = "submit" || c.typeProp = "reset" || c.typeProp = "button") then
        if c.valueProp ≠ "" then jsTrim c.valueProp else ""
      else ""

/-- Model of `getValue`: current value of a form element, `none` when absent/empty. -/
def getValue (c : ElemCore) : Option String :=
  if c.tagName = "INPUT" then
    if c.typeProp = "checkbox" || c.typeProp = "radio" then none
    else if c.typeProp = "file" then
      if c.filesCount > 0 then some (toString c.filesCount ++ " file(s)") else none
    else if c.valueProp ≠ "" then some c.valueProp else none
  else if c.tagName = "TEXTAREA" then
    if c.valueProp ≠ "" then some c.valueProp else none
  else if c.tagName = "SELECT" then
    if c.valueProp ≠ "" then some c.valueProp else none
  else none

/-- The optional state bits of `getElementState`. -/
structure ElemState where
  checked : Option Bool := none
  disabled : Option Bool := none
  expanded : Option Bool := none
  selected : Option Bool := none
  required : Option Bool := none
  description : Option String := none
deriving Repr, DecidableEq

/-- Model of `getElementState`. -/
def getElementState (env : DocEnv) (c : ElemCore) : ElemState :=
  let tag := c.tagName
  let checked : Option Bool :=
    if tag = "INPUT" && (c.typeProp = "checkbox" || c.typeProp = "radio") then
      some c.checkedProp
    else none
  let disabled : Option Bool :=
    if ((tag = "INPUT" || tag = "BUTTON" || tag = "SELECT" || tag = "TEXTAREA") &&
          c.disabledProp) || c.getAttr "aria-disabled" == some "true" then
      some true
    else none
  let expanded : Option Bool :=
    match c.getAttr "aria-expanded" with
    | some v => some (v = "true")
    | none => none
  let selected : Option Bool :=
    match c.getAttr "aria-selected" with
    | some v => some (v = "true")
    | none => if tag = "OPTION" then some c.selectedProp else none
  let required : Option Bool :=
    if ((tag = "INPUT" || tag = "SELECT" || tag = "TEXTAREA") && c.requiredProp) ||
        c.getAttr "aria-required" == some "true" then
      some true
    else none
  let description : Option String :=
    match c.getAttr "aria-describedby" with
    | some db =>
      if db ≠ "" then
        let desc := labelledByText env db
        if desc ≠ "" then some desc else none
      else titleDescription c
    | none => titleDescription c
  { checked := checked, disabled := disabled, expanded := expanded,
    selected := selected, required := required, description := description }
where
  /-- Model of `title` is used as the description only when the accessible name came
  from `aria-label` or `aria-labelledby`. -/
  titleDescription (c : ElemCore) : Option String :=
    match c.getAttr "title" with
    | some ti =>
      if ti ≠ "" && (c.attrTruthy "aria-label" || c.attrTruthy "aria-labelledby") then
        some (jsTrim ti)
      else none
    | none => none

/-! ### The accessibility tree -/

/-- An `AccessibilityNode`.  Optional fields are `none` when the builder did
not set them; `children` distinguishes "unset" from "set to a list". -/
inductive ANode where
  | mk (role : String) (name : String) (ref : Option String) (level : Option Nat)
      (value : Option String) (checked : Option Bool) (disabled : Option Bool)
      (expanded : Option Bool) (selected : Option Bool) (required : Option Bool)
      (description : Option String) (children : Option (List ANode))
deriving Repr

def ANode.role : ANode → String
  | .mk r _ _ _ _ _ _ _ _ _ _ _ => r

def ANode.name : ANode → String
  | .mk _ n _ _ _ _ _ _ _ _ _ _ => n

def ANode.ref : ANode → Option String
  | .mk _ _ r _ _ _ _ _ _ _ _ _ => r

def ANode.children : ANode → Option (List ANode)
  | .mk _ _ _ _ _ _ _ _ _ _ _ cs => cs

/-- A text pseudo-node (`{role: 'text', name}`). -/
def ANode.textNode (s : String) : ANode :=
  .mk "text" s none none none none none none none none none none

/-- Model of `text.length > 200 ? text.slice(0, 200) + '...' : text`. -/
def truncate200 (s : String) : String :=
  if s.length > 200 then jsTake s 200 ++ "..." else s

/-- Model of `getDirectTextContent`: direct text-node children, trimmed, joined by a
single space. -/
def getDirectTextContent (children : List DomNode) : String :=
  children.foldl
    (fun acc c =>
      match c with
      | .text s =>
        let t := jsTrim s
        if t = "" then acc
        else if acc = "" then t else acc ++ " " ++ t
      | .elem _ _ _ => acc)
    ""

/-- Model of `MAX_NODES`. -/
def MAX_NODES : Nat := 50000

/-- The builder's module-level mutable state: the reference map, the ref
counter and the per-snapshot node counter. -/
structure BuildState where
  refMap : List (String × DomNode)
  refCounter : Nat
  nodeCount : Nat

/-- Model of `resetRefState`. -/
def resetRefState (st : BuildState) : BuildState :=
  { st with refMap := [], refCounter := 0 }

/-- Model of `assignRef`: label the element `e<counter>` and record it in the map. -/
def assignRef (el : DomNode) (st : BuildState) : String × BuildState :=
  let ref := "e" ++ toString st.refCounter
  (ref, { st with refMap := st.refMap ++ [(ref, el)],
                  refCounter := st.refCounter + 1 })

mutual

/-- Model of `flattenGenericChildren`: a nameless, ref-less generic child with a
`children` field is replaced by its (recursively flattened) children. -/
def flattenGenericChildren : List ANode → List ANode
  | [] => []
  | c :: rest => flattenGenericOne c ++ flattenGenericChildren rest

/-- One child of the `flattenGenericChildren` loop: either spread its
flattened children or keep the node itself. -/
def flattenGenericOne : ANode → List ANode
  | .mk role name ref level value chk dis exp sel req desc children =>
    match children with
    | some cs =>
      if role = "generic" && name = "" && ref = none then
        flattenGenericChildren cs
      else
        [.mk role name ref level value chk dis exp sel req desc (some cs)]
    | none => [.mk role name ref level value chk dis exp sel req desc none]

end

/-- Model of the heading-level regex applied to the tag name. -/
def headingLevel (t : String) : Option Nat :=
  match t.toList with
  | ['H', d] => if d.isDigit then some (d.toNat - 48) else none
  | _ => none

mutual

/-- Model of `buildNode(el, depth)`: `Option ANode` plus the updated builder state.
Mirrors the source order: node-count check and increment, depth cap, hidden
check, skip tags, child construction (interleaving element children and text
pseudo-nodes), generic flattening, ref assignment for interactive elements,
heading level, value, state bits, child attachment, text fallback. -/
def buildNode (env : DocEnv) (n : DomNode) (depth : Nat) (st : BuildState) :
    Option ANode × BuildState :=
  match n with
  | .text _ => (none, st)
  | .elem c lbl children =>
    if st.nodeCount ≥ MAX_NODES then (none, st)
    else
      let st := { st with nodeCount := st.nodeCount + 1 }
      if depth > 100 then (none, st)
      else if isHidden c then (none, st)
      else if SKIP_TAGS.contains c.tagName then (none, st)
      else
        let role := getRole c
        let interactive := isInteractive c
        let name := getAccessibleName env (.elem c lbl children)
        let semantic := role ≠ "generic"
        let bc := buildChildren env children name (depth + 1) st
        let childNodes := bc.1
        let st := bc.2
        if !interactive && !(decide semantic) && name = "" then
          match childNodes with
          | [] =>
            let text := getDirectTextContent children
            if text = "" then (none, st)
            else (some (ANode.textNode (truncate200 text)), st)
          | [single] => (some single, st)
          | _ =>
            (some (ANode.mk "generic" "" none none none none none none none none
              none (some childNodes)), st)
        else
          let ra : Option String × BuildState :=
            if interactive then
              let r := assignRef (.elem c lbl children) st
              (some r.1, r.2)
            else (none, st)
          let refId := ra.1
          let st := ra.2
          let level := if role = "heading" then headingLevel c.tagName else none
          let value := getValue c
          let es := getElementState env c
          let flat := flattenGenericChildren childNodes
          let childrenOpt : Option (List ANode) :=
            if flat.length > 0 then some flat else none
          if !interactive && childrenOpt.isNone && name = "" then
            let text := jsTrim (DomNode.textContent (.elem c lbl children))
            if text = "" then (none, st)
            else
              (some (ANode.mk role (truncate200 text) refId level value es.checked
                es.disabled es.expanded es.selected es.required es.description
                childrenOpt), st)
          else
            (some (ANode.mk role name refId level value es.checked es.disabled
              es.expanded es.selected es.required es.description childrenOpt), st)

/-- The `for (const child of el.childNodes)` loop of `buildNode`: element
children recurse; text children become `text` pseudo-nodes unless empty after
trimming or equal to the parent's accessible name. -/
def buildChildren (env : DocEnv) (children : List DomNode) (parentName : String)
    (depth : Nat) (st : BuildState) : List ANode × BuildState :=
  match children with
  | [] => ([], st)
  | .elem c lbl ch :: rest =>
    let r := buildNode env (.elem c lbl ch) depth st
    let rs := buildChildren env rest parentName depth r.2
    match r.1 with
    | some nd => (nd :: rs.1, rs.2)
    | none => rs
  | .text s :: rest =>
    let t := jsTrim s
    let rs := buildChildren env rest parentName depth st
    if t ≠ "" && t ≠ parentName then
      (ANode.textNode (truncate200 t) :: rs.1, rs.2)
    else rs

end

/-- The document as seen by `buildAccessibilityTree`: its title and its
`body` element (with the body's element children inside it). -/
structure DomDocument where
  title : String
  body : Option DomNode

/-- The `for (const child of document.body.children)` loop: `children` is the
element-only collection, so text nodes directly under `body` are skipped. -/
def buildBodyChildren (env : DocEnv) (children : List DomNode) (st : BuildState) :
    List ANode × BuildState :=
  match children with
  | [] => ([], st)
  | .text _ :: rest => buildBodyChildren env rest st
  | .elem c lbl ch :: rest =>
    let r := buildNode env (.elem c lbl ch) 0 st
    let rs := buildBodyChildren env rest r.2
    match r.1 with
    | some nd => (nd :: rs.1, rs.2)
    | none => rs

/-- Model of `buildAccessibilityTree`: reset the ref state and the node counter, build
a `document` root named by the title, attach the flattened children of
`body`, and append a truncation marker when the node cap was reached. -/
def buildAccessibilityTree (env : DocEnv) (doc : DomDocument) (st : BuildState) :
    ANode × BuildState :=
  let st := { resetRefState st with nodeCount := 0 }
  let root : ANode :=
    .mk "document" doc.title none none none none none none none none none none
  match doc.body with
  | none => (root, st)
  | some (.text _) => (root, st)
  | some (.elem _ _ children) =>
    let bc := buildBodyChildren env children st
    let st := bc.2
    let flat := flattenGenericChildren bc.1
    let rootChildren : Option (List ANode) :=
      if flat.length > 0 then some flat else none
    let rootChildren :=
      if st.nodeCount ≥ MAX_NODES then
        some ((rootChildren.getD []) ++
          [ANode.textNode ("[Tree truncated at " ++ toString MAX_NODES ++ " nodes]")])
      else rootChildren
    (.mk "document" doc.title none none none none none none none none none
      rootChildren, st)

/-! ### Reference resolution (`resolveRef`)

`resolveRef` looks the ref up in the module-level map; a miss throws the
"not found" error.  On a hit it verifies `document.contains(el)`; if the
element has left the document the entry is deleted from the map and the
distinct "stale" error is thrown.  Containment is a predicate on elements
(element identity is meaningful only inside one page, so the resolution
logic is stated generically over the element type). -/

/-- The "not found" message of `resolveRef`. -/
def refNotFoundMessage (ref : String) : String :=
  "Element ref \"" ++ ref ++
    "\" not found. The page may have changed since the last snapshot. Take a new snapshot and use updated refs."

/-- The "stale" message of `resolveRef`. -/
def refStaleMessage (ref : String) : String :=
  "Element ref \"" ++ ref ++
    "\" is stale — the element is no longer in the DOM. Take a new snapshot."

/-- Model of `refMap.get(ref)` on the association list representing the JS `Map`. -/
def lookupRef {α : Type} (m : List (String × α)) (r : String) : Option α :=
  (m.find? (fun p => p.1 = r)).map (·.2)

/-- Model of `refMap.delete(ref)` (keys of a JS `Map` are unique). -/
def deleteRef {α : Type} (m : List (String × α)) (r : String) : List (String × α) :=
  m.filter (fun p => p.1 ≠ r)

/-- Model of `resolveRef`: the result (element or thrown error) and the possibly
updated map. -/
def resolveRef {α : Type} (m : List (String × α)) (contains : α → Bool) (r : String) :
    Except String α × List (String × α) :=
  match lookupRef m r with
  | none => (.error (refNotFoundMessage r), m)
  | some el =>
    if contains el then (.ok el, m)
    else (.error (refStaleMessage r), deleteRef m r)

/-! ### `handleSelectOption` -/

/-- An `<option>` element: its text content, `value`, and `selected` flag. -/
structure OptionEl where
  textContent : String
  value : String
  selected : Bool
deriving Repr, DecidableEq

/-- A `<select>` element. -/
structure SelectEl where
  multiple : Bool
  options : List OptionEl
deriving Repr, DecidableEq

/-- The error thrown for a value matching no option. -/
def optionNotFoundMessage (v ref : String) : String :=
  "Option \"" ++ v ++ "\" not found in select element (ref " ++ ref ++ ")"

/-- Model of `Array.from(el.options).find(opt => opt.textContent?.trim() === value ||
opt.value === value)`, returning the updated option list (the found option's
`selected` set) and the option as found. -/
def selectFirstMatch (v : String) : List OptionEl → Option (List OptionEl × OptionEl)
  | [] => none
  | o :: os =>
    if jsTrim o.textContent = v || o.value = v then
      some ({ o with selected := true } :: os, o)
    else
      match selectFirstMatch v os with
      | some (os', m) => some (o :: os', m)
      | none => none

/-- The `for (const value of params.values)` loop: select each matching
option and collect `option.textContent?.trim() || option.value`. -/
def selectLoop (ref : String) : List OptionEl → List String →
    Except String (List OptionEl × List String)
  | opts, [] => .ok (opts, [])
  | opts, v :: vs =>
    match selectFirstMatch v opts with
    | none => .error (optionNotFoundMessage v ref)
    | some (opts', m) =>
      let desc := if jsTrim m.textContent ≠ "" then jsTrim m.textContent else m.value
      match selectLoop ref opts' vs with
      | .ok (optsF, sel) => .ok (optsF, desc :: sel)
      | .error e => .error e

/-- Model of `handleSelectOption` on a resolved `<select>` element: for multi-selects
deselect every option first; process the values; on success dispatch exactly
one `change` event at the end (the `Nat` counts dispatched change events). -/
def handleSelectOption (ref : String) (el : SelectEl) (values : List String) :
    Except String (SelectEl × List String × Nat) :=
  let opts0 :=
    if el.multiple then el.options.map (fun o => { o with selected := false })
    else el.options
  match selectLoop ref opts0 values with
  | .ok (opts, sel) => .ok ({ el with options := opts }, sel, 1)
  | .error e => .error e

/-- Modelled from the claim's words (not the source): match each value by
trimmed text content against all options first, and only if no option's text
matches, match it by option value. -/
def findTextFirstSpec (opts : List OptionEl) (v : String) : Option OptionEl :=
  match opts.find? (fun o => jsTrim o.textContent = v) with
  | some o => some o
  | none => opts.find? (fun o => o.value = v)

/-! ### `handleWaitFor` -/

/-- Model of `WaitForParams`; `time` is in seconds. -/
structure WaitForParams where
  text : Option String
  textGone : Option String
  time : Option Nat
deriving Repr, DecidableEq

/-- JS truthiness of an optional string (`undefined` and `""` are falsy). -/
def truthyStr : Option String → Bool
  | none => false
  | some s => s ≠ ""

/-- JS truthiness of an optional number (`undefined` and `0` are falsy). -/
def truthyNum : Option Nat → Bool
  | none => false
  | some n => n ≠ 0

/-- The validation error of `handleWaitFor`. -/
def waitForValidationMessage : String :=
  "At least one of \"text\", \"textGone\", or \"time\" must be provided"

/-- What `handleWaitFor` decides to do before waiting: a plain delay, or a
text observation with an overall timeout. -/
inductive WaitForPlan where
  | timeOnly (delayMs : Nat)
  | observe (searchText : String) (waitForAppear : Bool) (timeoutMs : Nat)
deriving Repr, DecidableEq

/-- The synchronous decision logic of `handleWaitFor`: parameter validation
and the timeout computation (`params.time ? params.time * 1000 : 30000`). -/
def handleWaitFor (params : WaitForParams) : Except String WaitForPlan :=
  if !truthyStr params.text && !truthyStr params.textGone &&
      !truthyNum params.time then
    .error waitForValidationMessage
  else
    let timeoutMs :=
      if truthyNum params.time then (params.time.getD 0) * 1000 else 30000
    if !truthyStr params.text && !truthyStr params.textGone then
      .ok (.timeOnly timeoutMs)
    else
      let searchText :=
        if truthyStr params.text then params.text.getD ""
        else params.textGone.getD ""
      .ok (.observe searchText (truthyStr params.text) timeoutMs)

/-! ### Helpers for the depth-cap and select-option theorems -/

mutual

/-- Depth of an accessibility-tree node (1 for a leaf). -/
def ANode.depth : ANode → Nat
  | .mk _ _ _ _ _ _ _ _ _ _ _ children =>
    match children with
    | some cs => 1 + depthList cs
    | none => 1

/-- Maximum depth over a list of nodes (0 when empty). -/
def depthList : List ANode → Nat
  | [] => 0
  | c :: cs => max c.depth (depthList cs)

end

/-- An element with an explicit `role="group"` and an `aria-label`, so the
builder keeps it as a named semantic node. -/
def groupCore : ElemCore :=
  { tagName := "DIV", attrs := [("role", "group"), ("aria-label", "L")] }

/-- A chain of `n + 1` nested `role="group"` elements. -/
def chainElem : Nat → DomNode
  | 0 => .elem groupCore none []
  | n + 1 => .elem groupCore none [chainElem n]

/-- A document environment with no `getElementById` / `label[for]` targets. -/
def env₀ : DocEnv := ⟨fun _ => none, fun _ => none⟩

/-- The children list of `chainElem n` (`[]` at the end of the chain). -/
def chainTail : Nat → List DomNode
  | 0 => []
  | m + 1 => [chainElem m]

/-- The accessibility node the builder produces for a kept chain suffix of
`k + 1` elements. -/
def chainANode : Nat → ANode
  | 0 => .mk "group" "L" none none none none none none none none none none
  | k + 1 =>
    .mk "group" "L" none none none none none none none none none
      (some [chainANode k])

/-! ## Theorems -/

/-- The fuel is irrelevant as long as it is at least the buffer length. -/
theorem decodeAux_irrel :
    ∀ f₁ f₂ b, b.length ≤ f₁ → b.length ≤ f₂ → decodeAux f₁ b = decodeAux f₂ b := by
  intro f₁
  induction f₁ with
  | zero =>
    intro f₂ b h1 _
    have hb : b = [] := List.length_eq_zero.mp (Nat.le_zero.mp h1)
    subst hb
    cases f₂ <;> simp [decodeAux]
  | succ f₁' ih =>
    intro f₂ b h1 h2
    cases f₂ with
    | zero =>
      have hb : b = [] := List.length_eq_zero.mp (Nat.le_zero.mp h2)
      subst hb
      simp [decodeAux]
    | succ f₂' =>
      simp only [decodeAux]
      by_cases h4 : 4 ≤ b.length
      · rw [if_pos h4, if_pos h4]
        by_cases hcap : IPC_FRAME_CAP < readUInt32BE b
        · rw [if_pos hcap, if_pos hcap]
        · rw [if_neg hcap, if_neg hcap]
          by_cases hfull : 4 + readUInt32BE b ≤ b.length
          · rw [if_pos hfull, if_pos hfull]
            rw [ih f₂' (b.drop (4 + readUInt32BE b))
                  (by simp only [List.length_drop]; omega)
                  (by simp only [List.length_drop]; omega)]
          · rw [if_neg hfull, if_neg hfull]
      · rw [if_neg h4, if_neg h4]

/-- The defining equation of `decodeLoop`, free of fuel. -/
theorem decodeLoop_eq (b : List Nat) :
    decodeLoop b =
      if 4 ≤ b.length then
        if IPC_FRAME_CAP < readUInt32BE b then
          .error s!"Frame too large: {readUInt32BE b} bytes"
        else if 4 + readUInt32BE b ≤ b.length then
          match decodeLoop (b.drop (4 + readUInt32BE b)) with
          | .ok (msgs, rest) => .ok (((b.drop 4).take (readUInt32BE b)) :: msgs, rest)
          | .error e => .error e
        else
          .ok ([], b)
      else
        .ok ([], b) := by
  rcases Nat.eq_zero_or_pos b.length with h0 | hpos
  · have hb : b = [] := List.length_eq_zero.mp h0
    subst hb
    simp [decodeLoop, decodeAux]
  · obtain ⟨n, hn⟩ : ∃ n, b.length = n + 1 :=
      ⟨b.length - 1, by omega⟩
    have step : decodeLoop b = decodeAux (n + 1) b := by
      unfold decodeLoop; rw [hn]
    rw [step]
    simp only [decodeAux]
    by_cases h4 : 4 ≤ b.length
    · rw [if_pos h4, if_pos h4]
      by_cases hcap : IPC_FRAME_CAP < readUInt32BE b
      · rw [if_pos hcap, if_pos hcap]
      · rw [if_neg hcap, if_neg hcap]
        by_cases hfull : 4 + readUInt32BE b ≤ b.length
        · rw [if_pos hfull, if_pos hfull]
          rw [decodeAux_irrel n (b.drop (4 + readUInt32BE b)).length
                (b.drop (4 + readUInt32BE b))
                (by simp only [List.length_drop]; omega) (le_refl _)]
          rfl
        · rw [if_neg hfull, if_neg hfull]
    · rw [if_neg h4, if_neg h4]

/-- Reading the length prefix only looks at the first four bytes. -/
theorem readUInt32BE_append (b c : List Nat) (hb : 4 ≤ b.length) :
    readUInt32BE (b ++ c) = readUInt32BE b := by
  unfold readUInt32BE
  rw [List.getD_append _ _ _ 0 (by omega), List.getD_append _ _ _ 1 (by omega),
      List.getD_append _ _ _ 2 (by omega), List.getD_append _ _ _ 3 (by omega)]

/-- Inversion: `readUInt32BE` inverts `writeUInt32BE` on values below `2^32`. -/
theorem readUInt32BE_write (n : Nat) (t : List Nat) (hn : n < 2 ^ 32) :
    readUInt32BE (writeUInt32BE n ++ t) = n := by
  simp only [writeUInt32BE, readUInt32BE, List.cons_append, List.nil_append, List.getD_cons_zero,
    List.getD_cons_succ]
  omega

/-- If the loop errors on a buffer, it errors identically on any extension:
the offending oversized header sits at the same greedily reached position. -/
theorem decodeLoop_error_append :
    ∀ n b c e, b.length ≤ n → decodeLoop b = .error e →
      decodeLoop (b ++ c) = .error e := by
  intro n
  induction n with
  | zero =>
    intro b c e hb h
    rw [decodeLoop_eq] at h
    rw [if_neg (by omega)] at h
    exact absurd h (by simp)
  | succ n ih =>
    intro b c e hb h
    rw [decodeLoop_eq] at h
    by_cases h4 : 4 ≤ b.length
    · rw [if_pos h4] at h
      rw [decodeLoop_eq, if_pos (by rw [List.length_append]; omega),
          readUInt32BE_append b c h4]
      by_cases hcap : IPC_FRAME_CAP < readUInt32BE b
      · rw [if_pos hcap] at h
        rw [if_pos hcap]
        exact h
      · rw [if_neg hcap] at h
        rw [if_neg hcap]
        by_cases hfull : 4 + readUInt32BE b ≤ b.length
        · rw [if_pos hfull] at h
          rw [if_pos (by rw [List.length_append]; omega)]
          rw [List.drop_append_of_le_length hfull]
          cases hrec : decodeLoop (b.drop (4 + readUInt32BE b)) with
          | ok p =>
            rw [hrec] at h
            exact absurd h (by simp)
          | error e' =>
            rw [hrec] at h
            have he : e' = e := by simpa using h
            subst he
            rw [ih (b.drop (4 + readUInt32BE b)) c e'
                  (by simp only [List.length_drop]; omega) hrec]
        · rw [if_neg hfull] at h
          exact absurd h (by simp)
    · rw [if_neg h4] at h
      exact absurd h (by simp)

/-- Extending the input of a successful decode first replays the already
extracted frames, then continues from the leftover plus the extension. -/
theorem decodeLoop_ok_append :
    ∀ n b c msgs rest, b.length ≤ n → decodeLoop b = .ok (msgs, rest) →
      decodeLoop (b ++ c) =
        match decodeLoop (rest ++ c) with
        | .ok (m', r') => .ok (msgs ++ m', r')
        | .error e => .error e := by
  intro n
  induction n with
  | zero =>
    intro b c msgs rest hb h
    rw [decodeLoop_eq, if_neg (by omega)] at h
    obtain ⟨hm, hr⟩ : msgs = [] ∧ rest = b := by
      constructor <;> · injection h with h'; injection h' with h1 h2; simp_all
    subst hm; subst hr
    cases hd : decodeLoop (rest ++ c) <;> simp
  | succ n ih =>
    intro b c msgs rest hb h
    rw [decodeLoop_eq] at h
    by_cases h4 : 4 ≤ b.length
    · rw [if_pos h4] at h
      by_cases hcap : IPC_FRAME_CAP < readUInt32BE b
      · rw [if_pos hcap] at h
        exact absurd h (by simp)
      · rw [if_neg hcap] at h
        by_cases hfull : 4 + readUInt32BE b ≤ b.length
        · rw [if_pos hfull] at h
          cases hrec : decodeLoop (b.drop (4 + readUInt32BE b)) with
          | error e' =>
            rw [hrec] at h
            exact absurd h (by simp)
          | ok p =>
            obtain ⟨ms, r⟩ := p
            rw [hrec] at h
            obtain ⟨hm, hr⟩ : msgs = (b.drop 4).take (readUInt32BE b) :: ms ∧ rest = r := by
              constructor <;> · injection h with h'; injection h' with h1 h2; simp_all
            subst hm; subst hr
            rw [decodeLoop_eq, if_pos (by rw [List.length_append]; omega),
                readUInt32BE_append b c h4, if_neg hcap,
                if_pos (by rw [List.length_append]; omega),
                List.drop_append_of_le_length hfull,
                List.drop_append_of_le_length (by omega),
                List.take_append_of_le_length (by simp only [List.length_drop]; omega)]
            rw [ih (b.drop (4 + readUInt32BE b)) c ms rest
                  (by simp only [List.length_drop]; omega) hrec]
            cases hrec2 : decodeLoop (rest ++ c) <;> simp
        · rw [if_neg hfull] at h
          obtain ⟨hm, hr⟩ : msgs = [] ∧ rest = b := by
            constructor <;> · injection h with h'; injection h' with h1 h2; simp_all
          subst hm; subst hr
          cases hd : decodeLoop (rest ++ c) <;> simp
    · rw [if_neg h4] at h
      obtain ⟨hm, hr⟩ : msgs = [] ∧ rest = b := by
        constructor <;> · injection h with h'; injection h' with h1 h2; simp_all
      subst hm; subst hr
      cases hd : decodeLoop (rest ++ c) <;> simp

/-- The leftover of a successful decode holds no complete frame: decoding it
again extracts nothing. -/
theorem decodeLoop_leftover :
    ∀ n b msgs rest, b.length ≤ n → decodeLoop b = .ok (msgs, rest) →
      decodeLoop rest = .ok ([], rest) := by
  intro n
  induction n with
  | zero =>
    intro b msgs rest hb h
    rw [decodeLoop_eq, if_neg (by omega)] at h
    have hr : rest = b := by injection h with h'; injection h' with h1 h2; simp_all
    subst hr
    rw [decodeLoop_eq, if_neg (by omega)]
  | succ n ih =>
    intro b msgs rest hb h
    rw [decodeLoop_eq] at h
    by_cases h4 : 4 ≤ b.length
    · rw [if_pos h4] at h
      by_cases hcap : IPC_FRAME_CAP < readUInt32BE b
      · rw [if_pos hcap] at h
        exact absurd h (by simp)
      · rw [if_neg hcap] at h
        by_cases hfull : 4 + readUInt32BE b ≤ b.length
        · rw [if_pos hfull] at h
          cases hrec : decodeLoop (b.drop (4 + readUInt32BE b)) with
          | error e' =>
            rw [hrec] at h
            exact absurd h (by simp)
          | ok p =>
            obtain ⟨ms, r⟩ := p
            rw [hrec] at h
            have hr : rest = r := by injection h with h'; injection h' with h1 h2; simp_all
            subst hr
            exact ih (b.drop (4 + readUInt32BE b)) ms rest
              (by simp only [List.length_drop]; omega) hrec
        · rw [if_neg hfull] at h
          have hr : rest = b := by injection h with h'; injection h' with h1 h2; simp_all
          subst hr
          rw [decodeLoop_eq, if_pos h4, if_neg hcap, if_neg hfull]
    · rw [if_neg h4] at h
      have hr : rest = b := by injection h with h'; injection h' with h1 h2; simp_all
      subst hr
      rw [decodeLoop_eq, if_neg h4]

/-- Decoding a well-formed frame at the head of the stream yields its payload
and continues on the remainder. -/
theorem decodeLoop_encode_cons (p r : List Nat) (hp : p.length ≤ IPC_FRAME_CAP) :
    decodeLoop (encodeFrame p ++ r) =
      match decodeLoop r with
      | .ok (m, rest) => .ok (p :: m, rest)
      | .error e => .error e := by
  have hcap32 : p.length < 2 ^ 32 := by
    have : IPC_FRAME_CAP < 2 ^ 32 := by norm_num [IPC_FRAME_CAP]
    omega
  have hassoc : encodeFrame p ++ r = writeUInt32BE p.length ++ (p ++ r) := by
    simp [encodeFrame]
  have hwlen : (writeUInt32BE p.length).length = 4 := by simp [writeUInt32BE]
  rw [hassoc, decodeLoop_eq]
  rw [readUInt32BE_write p.length (p ++ r) hcap32]
  rw [if_pos (by simp only [List.length_append, hwlen]; omega), if_neg (by omega),
      if_pos (by simp only [List.length_append, hwlen]; omega)]
  have hdrop4 : (writeUInt32BE p.length ++ (p ++ r)).drop 4 = p ++ r := by
    rw [← hwlen, List.drop_left]
  have hdropfull : (writeUInt32BE p.length ++ (p ++ r)).drop (4 + p.length) = r := by
    rw [show writeUInt32BE p.length ++ (p ++ r) = (writeUInt32BE p.length ++ p) ++ r by simp,
        show 4 + p.length = (writeUInt32BE p.length ++ p).length by simp [hwlen],
        List.drop_left]
  rw [hdrop4, hdropfull, List.take_left]

/-- Decoding the concatenation of well-formed frames yields exactly those
frames with an empty leftover. -/
theorem decodeLoop_frames (frames : List (List Nat))
    (h : ∀ f ∈ frames, f.length ≤ IPC_FRAME_CAP) :
    decodeLoop ((frames.map encodeFrame).flatten) = .ok (frames, []) := by
  induction frames with
  | nil => rfl
  | cons f fs ih =>
    have hf : f.length ≤ IPC_FRAME_CAP := h f (by simp)
    have hfs : ∀ g ∈ fs, g.length ≤ IPC_FRAME_CAP := fun g hg => h g (by simp [hg])
    rw [List.map_cons, List.flatten_cons, decodeLoop_encode_cons f _ hf, ih hfs]

/-- Incremental pushes compute the batch decode of the whole stream, given a
quiescent starting buffer. -/
theorem pushAll_of_decode :
    ∀ (chunks : List (List Nat)) (b : List Nat) (msgs : List (List Nat)) (rest : List Nat),
      decodeLoop b = .ok ([], b) →
      decodeLoop (b ++ chunks.flatten) = .ok (msgs, rest) →
      FrameDecoder.pushAll ⟨b⟩ chunks = .ok (msgs, ⟨rest⟩) := by
  intro chunks
  induction chunks with
  | nil =>
    intro b msgs rest hq h
    rw [List.flatten_nil, List.append_nil] at h
    rw [hq] at h
    obtain ⟨hm, hr⟩ : msgs = [] ∧ rest = b := by
      constructor <;> · injection h with h'; injection h' with h1 h2; simp_all
    subst hm; subst hr
    rfl
  | cons c cs ih =>
    intro b msgs rest hq h
    rw [List.flatten_cons, ← List.append_assoc] at h
    cases hm1 : decodeLoop (b ++ c) with
    | error e =>
      rw [decodeLoop_error_append (b ++ c).length (b ++ c) cs.flatten e (le_refl _) hm1] at h
      exact absurd h (by simp)
    | ok p =>
      obtain ⟨m1, r1⟩ := p
      rw [decodeLoop_ok_append (b ++ c).length (b ++ c) cs.flatten m1 r1 (le_refl _) hm1] at h
      cases hrec : decodeLoop (r1 ++ cs.flatten) with
      | error e =>
        rw [hrec] at h
        exact absurd h (by simp)
      | ok q =>
        obtain ⟨m2, r2⟩ := q
        rw [hrec] at h
        obtain ⟨hm, hr⟩ : msgs = m1 ++ m2 ∧ rest = r2 := by
          constructor <;> · injection h with h'; injection h' with h1 h2; simp_all
        subst hm; subst hr
        have hq1 : decodeLoop r1 = .ok ([], r1) :=
          decodeLoop_leftover (b ++ c).length (b ++ c) m1 r1 (le_refl _) hm1
        have hpush : FrameDecoder.push ⟨b⟩ c = .ok (m1, ⟨r1⟩) := by
          simp only [FrameDecoder.push, hm1]
        simp only [FrameDecoder.pushAll, hpush, ih r1 m2 rest hq1 hrec]

/-- Claim C3. For every IPC message `m` (represented by its serialized payload
bytes, of length within the 64 MB cap), encoding `m` with `encodeFrame` and
pushing the resulting bytes into a fresh `FrameDecoder` yields exactly the
one-element sequence `[m]`, structurally equal to the original, with an empty
carry-over buffer: the length-prefixed framing round-trips. -/
theorem claim_C3_frame_roundtrip (p : List Nat) (hp : p.length ≤ IPC_FRAME_CAP) :
    FrameDecoder.empty.push (encodeFrame p) = .ok ([p], FrameDecoder.empty) := by
  have h : decodeLoop ((List.map encodeFrame [p]).flatten) = .ok ([p], []) :=
    decodeLoop_frames [p] (by simpa using hp)
  simp only [List.map_cons, List.map_nil, List.flatten_cons, List.flatten_nil,
    List.append_nil] at h
  simp only [FrameDecoder.push, FrameDecoder.empty, List.nil_append, h]

/-- Witness for C3 at the concrete payload `[104, 105]`. -/
theorem claim_C3_frame_roundtrip_witness :
    ([104, 105] : List Nat).length ≤ IPC_FRAME_CAP ∧
      FrameDecoder.empty.push (encodeFrame [104, 105]) =
        .ok ([[104, 105]], FrameDecoder.empty) :=
  ⟨by decide, claim_C3_frame_roundtrip [104, 105] (by decide)⟩

/-- Claim C4. For every finite sequence of well-formed frames (payload lengths
within the cap) and every partition of the concatenated byte stream into
chunks, pushing the chunks in order into a single `FrameDecoder` emits
exactly the original message sequence, independent of chunk boundaries;
partial frames are carried over between pushes. -/
theorem claim_C4_chunk_invariance (frames chunks : List (List Nat))
    (hf : ∀ f ∈ frames, f.length ≤ IPC_FRAME_CAP)
    (hc : chunks.flatten = (frames.map encodeFrame).flatten) :
    FrameDecoder.empty.pushAll chunks = .ok (frames, FrameDecoder.empty) := by
  apply pushAll_of_decode chunks [] frames []
  · rfl
  · rw [List.nil_append, hc]
    exact decodeLoop_frames frames hf

/-- Witness for C4: the two frames `[7]` and `[8, 9]`, with the byte stream
split at boundaries that cut both headers and payloads. -/
theorem claim_C4_chunk_invariance_witness :
    (∀ f ∈ ([[7], [8, 9]] : List (List Nat)), f.length ≤ IPC_FRAME_CAP) ∧
      ([[0, 0, 0], [1, 7, 0, 0], [0, 2, 8, 9]] : List (List Nat)).flatten =
        (([[7], [8, 9]] : List (List Nat)).map encodeFrame).flatten ∧
      FrameDecoder.empty.pushAll [[0, 0, 0], [1, 7, 0, 0], [0, 2, 8, 9]] =
        .ok ([[7], [8, 9]], FrameDecoder.empty) :=
  ⟨by decide, by decide,
    claim_C4_chunk_invariance [[7], [8, 9]] [[0, 0, 0], [1, 7, 0, 0], [0, 2, 8, 9]]
      (by decide) (by decide)⟩

theorem outcomesFor_append (i : String) (l₁ l₂ : List Outcome) :
    outcomesFor i (l₁ ++ l₂) = outcomesFor i l₁ + outcomesFor i l₂ := by
  simp [outcomesFor, List.filter_append]

theorem idCount_pos_iff (i : String) (l : List String) :
    0 < idCount i l ↔ i ∈ l := by
  induction l with
  | nil => simp [idCount]
  | cons x xs ih =>
    by_cases hx : x = i
    · subst hx
      simp [idCount, List.filter_cons]
    · simp only [idCount, List.filter_cons, decide_eq_true_eq] at ih ⊢
      rw [if_neg hx]
      simp only [List.mem_cons]
      constructor
      · intro hp
        exact Or.inr (ih.mp hp)
      · rintro (hh | hh)
        · exact absurd hh.symm hx
        · exact ih.mpr hh

theorem idCount_filter_self (i : String) (l : List String) :
    idCount i (l.filter (fun x => x ≠ i)) = 0 := by
  induction l with
  | nil => rfl
  | cons x xs ih =>
    by_cases hx : x = i
    · subst hx
      simpa [List.filter_cons] using ih
    · simp [idCount, List.filter_cons, hx]

theorem idCount_filter_ne (i j : String) (hij : i ≠ j) (l : List String) :
    idCount i (l.filter (fun x => x ≠ j)) = idCount i l := by
  induction l with
  | nil => rfl
  | cons x xs ih =>
    by_cases hx : x = j
    · subst hx
      have hxi : ¬x = i := fun hh => hij hh.symm
      simpa [idCount, List.filter_cons, hxi] using ih
    · by_cases hxi : x = i
      · subst hxi
        simpa [idCount, List.filter_cons, hx] using ih
      · simpa [idCount, List.filter_cons, hx, hxi] using ih

theorem mem_filter_ne (i j : String) (hij : i ≠ j) (l : List String) :
    i ∈ l.filter (fun x => x ≠ j) ↔ i ∈ l := by
  simp [List.mem_filter, hij]

theorem outcomesFor_map_disconnected (i : String) (l : List String) :
    outcomesFor i (l.map Outcome.disconnected) = idCount i l := by
  induction l with
  | nil => rfl
  | cons x xs ih =>
    by_cases hx : x = i
    · subst hx
      simpa [outcomesFor, idCount, List.filter_cons, Outcome.cid] using ih
    · simpa [outcomesFor, idCount, List.filter_cons, Outcome.cid, hx] using ih

theorem outcomesFor_map_serverClosing (i : String) (l : List String) :
    outcomesFor i (l.map Outcome.serverClosing) = idCount i l := by
  induction l with
  | nil => rfl
  | cons x xs ih =>
    by_cases hx : x = i
    · subst hx
      simpa [outcomesFor, idCount, List.filter_cons, Outcome.cid] using ih
    · simpa [outcomesFor, idCount, List.filter_cons, Outcome.cid, hx] using ih

/-- Single-step accounting: each event delivers for ID `i` exactly the
difference between its presence before and after, and presence stays
unduplicated. -/
theorem brokerStep_outcomes (st : BrokerState) (e : BrokerEvent) (i : String)
    (h : idCount i st.pending ≤ 1) :
    outcomesFor i (brokerStep st e).2 +
        (if i ∈ (brokerStep st e).1.pending then 1 else 0) =
      (if i ∈ st.pending then 1 else 0) ∧
    idCount i (brokerStep st e).1.pending ≤ 1 := by
  cases e with
  | response j =>
    by_cases hj : j ∈ st.pending
    · simp only [brokerStep, if_pos hj]
      by_cases hij : i = j
      · subst hij
        have hni : i ∉ st.pending.filter (fun x => x ≠ i) := by
          intro hmem
          have := (idCount_pos_iff i _).mpr hmem
          rw [idCount_filter_self] at this
          omega
        refine ⟨?_, by rw [idCount_filter_self]; omega⟩
        simp [outcomesFor, Outcome.cid, hni, hj]
      · refine ⟨?_, by rw [idCount_filter_ne i j hij]; exact h⟩
        have hji : ¬j = i := fun hh => hij (Eq.symm hh)
        rw [if_congr (mem_filter_ne i j hij st.pending) rfl rfl]
        simp only [outcomesFor, List.filter_cons, List.filter_nil, Outcome.cid,
          decide_eq_true_eq]
        rw [if_neg hji]
        simp
    · simp only [brokerStep, if_neg hj]
      exact ⟨by simp [outcomesFor], h⟩
  | timeout j =>
    by_cases hj : j ∈ st.pending
    · simp only [brokerStep, if_pos hj]
      by_cases hij : i = j
      · subst hij
        have hni : i ∉ st.pending.filter (fun x => x ≠ i) := by
          intro hmem
          have := (idCount_pos_iff i _).mpr hmem
          rw [idCount_filter_self] at this
          omega
        refine ⟨?_, by rw [idCount_filter_self]; omega⟩
        simp [outcomesFor, Outcome.cid, hni, hj]
      · refine ⟨?_, by rw [idCount_filter_ne i j hij]; exact h⟩
        have hji : ¬j = i := fun hh => hij (Eq.symm hh)
        rw [if_congr (mem_filter_ne i j hij st.pending) rfl rfl]
        simp only [outcomesFor, List.filter_cons, List.filter_nil, Outcome.cid,
          decide_eq_true_eq]
        rw [if_neg hji]
        simp
    · simp only [brokerStep, if_neg hj]
      exact ⟨by simp [outcomesFor], h⟩
  | writeError j =>
    by_cases hj : j ∈ st.pending
    · simp only [brokerStep, if_pos hj]
      by_cases hij : i = j
      · subst hij
        have hni : i ∉ st.pending.filter (fun x => x ≠ i) := by
          intro hmem
          have := (idCount_pos_iff i _).mpr hmem
          rw [idCount_filter_self] at this
          omega
        refine ⟨?_, by rw [idCount_filter_self]; omega⟩
        simp [outcomesFor, Outcome.cid, hni, hj]
      · refine ⟨?_, by rw [idCount_filter_ne i j hij]; exact h⟩
        have hji : ¬j = i := fun hh => hij (Eq.symm hh)
        rw [if_congr (mem_filter_ne i j hij st.pending) rfl rfl]
        simp only [outcomesFor, List.filter_cons, List.filter_nil, Outcome.cid,
          decide_eq_true_eq]
        rw [if_neg hji]
        simp
    · simp only [brokerStep, if_neg hj]
      exact ⟨by simp [outcomesFor], h⟩
  | disconnect =>
    simp only [brokerStep]
    rw [outcomesFor_map_disconnected]
    refine ⟨?_, by simp [idCount]⟩
    by_cases hm : i ∈ st.pending
    · have hpos := (idCount_pos_iff i st.pending).mpr hm
      rw [if_pos hm, if_neg (List.not_mem_nil i)]
      omega
    · have hz : idCount i st.pending = 0 := by
        by_contra hnz
        exact hm ((idCount_pos_iff i st.pending).mp (by omega))
      simp [hm, hz]
  | serverClose =>
    simp only [brokerStep]
    rw [outcomesFor_map_serverClosing]
    refine ⟨?_, by simp [idCount]⟩
    by_cases hm : i ∈ st.pending
    · have hpos := (idCount_pos_iff i st.pending).mpr hm
      rw [if_pos hm, if_neg (List.not_mem_nil i)]
      omega
    · have hz : idCount i st.pending = 0 := by
        by_contra hnz
        exact hm ((idCount_pos_iff i st.pending).mp (by omega))
      simp [hm, hz]

/-- Run-level accounting, by induction over the event sequence. -/
theorem brokerRun_outcomes (events : List BrokerEvent) :
    ∀ (st : BrokerState) (i : String), idCount i st.pending ≤ 1 →
      outcomesFor i (brokerRun st events).2 +
          (if i ∈ (brokerRun st events).1.pending then 1 else 0) =
        (if i ∈ st.pending then 1 else 0) ∧
      idCount i (brokerRun st events).1.pending ≤ 1 := by
  induction events with
  | nil =>
    intro st i h
    exact ⟨by simp [brokerRun, outcomesFor], h⟩
  | cons e es ih =>
    intro st i h
    obtain ⟨hstep, hcount⟩ := brokerStep_outcomes st e i h
    obtain ⟨hrun, hcount'⟩ := ih (brokerStep st e).1 i hcount
    refine ⟨?_, by simpa [brokerRun] using hcount'⟩
    simp only [brokerRun, outcomesFor_append]
    omega

theorem brokerRun_append (st : BrokerState) (es es' : List BrokerEvent) :
    brokerRun st (es ++ es') =
      ((brokerRun (brokerRun st es).1 es').1,
        (brokerRun st es).2 ++ (brokerRun (brokerRun st es).1 es').2) := by
  induction es generalizing st with
  | nil => simp [brokerRun]
  | cons e es ih => simp [brokerRun, ih, List.append_assoc]

/-- Claim C1, counterexample. The claim as stated — for every command
submitted while a client is attached, exactly one of the three outcomes
{matching response, timeout rejection, disconnect rejection} is delivered,
exactly once — is false: with `"c1"` pending, the `socket.write` completion
callback firing with an error deletes the entry and rejects with the write
error, an outcome outside the three; a complete follow-up trace offering the
command a response, its timer expiry and a disconnect delivers none of the
three kinds (count 0, not 1).  Likewise `close()` rejects a pending command
with the "IPC server closing" error, also outside the three. -/
theorem claim_C1_counterexample :
    (brokerRun ⟨["c1"]⟩
        [BrokerEvent.writeError "c1", BrokerEvent.response "c1",
          BrokerEvent.timeout "c1", BrokerEvent.disconnect]).2 =
      [Outcome.writeFailed "c1"] ∧
    threeOutcomesFor "c1"
      (brokerRun ⟨["c1"]⟩
        [BrokerEvent.writeError "c1", BrokerEvent.response "c1",
          BrokerEvent.timeout "c1", BrokerEvent.disconnect]).2 = 0 ∧
    (brokerRun ⟨["c1"]⟩ [BrokerEvent.serverClose]).2 =
      [Outcome.serverClosing "c1"] ∧
    threeOutcomesFor "c1" (brokerRun ⟨["c1"]⟩ [BrokerEvent.serverClose]).2 = 0 := by
  refine ⟨rfl, rfl, rfl, rfl⟩

/-- Claim C1, amended. For a command whose correlation ID `i` is pending
(installed once by `sendCommand` while a client was attached): over any
sequence of broker events, at most one of the five outcomes (matching
response, timeout rejection, disconnect rejection, write-error rejection,
server-closing rejection) is delivered for `i`; exactly one has been
delivered precisely when the pending entry is gone; if the entry is still
present, the still-armed timer's expiry delivers exactly one (the timeout);
and a response arriving when the pending entry is absent (e.g. after the
timeout fired) is dropped without any effect on state or outcomes. -/
theorem claim_C1_exactly_once (st : BrokerState) (i : String)
    (events : List BrokerEvent)
    (hmem : i ∈ st.pending) (huniq : idCount i st.pending ≤ 1) :
    outcomesFor i (brokerRun st events).2 ≤ 1 ∧
    (outcomesFor i (brokerRun st events).2 = 1 ↔
      i ∉ (brokerRun st events).1.pending) ∧
    (i ∈ (brokerRun st events).1.pending →
      outcomesFor i (brokerRun st (events ++ [BrokerEvent.timeout i])).2 = 1) ∧
    (∀ st' : BrokerState, i ∉ st'.pending →
      brokerStep st' (BrokerEvent.response i) = (st', [])) := by
  obtain ⟨hacc, hcnt⟩ := brokerRun_outcomes events st i huniq
  rw [if_pos hmem] at hacc
  have hsplit : (i ∈ (brokerRun st events).1.pending ∧
        outcomesFor i (brokerRun st events).2 = 0) ∨
      (i ∉ (brokerRun st events).1.pending ∧
        outcomesFor i (brokerRun st events).2 = 1) := by
    by_cases hmem' : i ∈ (brokerRun st events).1.pending
    · rw [if_pos hmem'] at hacc
      exact Or.inl ⟨hmem', by omega⟩
    · rw [if_neg hmem'] at hacc
      exact Or.inr ⟨hmem', by omega⟩
  refine ⟨?_, ⟨?_, ?_⟩, ?_, ?_⟩
  · rcases hsplit with ⟨_, h0⟩ | ⟨_, h1⟩ <;> omega
  · intro h1 hmem'
    rcases hsplit with ⟨_, h0⟩ | ⟨hn, _⟩
    · omega
    · exact hn hmem'
  · intro hnm
    rcases hsplit with ⟨hmm, _⟩ | ⟨_, h1⟩
    · exact absurd hmm hnm
    · exact h1
  · intro hmem'
    rw [brokerRun_append]
    simp only [outcomesFor_append]
    have hout : outcomesFor i (brokerRun st events).2 = 0 := by
      rcases hsplit with ⟨_, h0⟩ | ⟨hn, _⟩
      · exact h0
      · exact absurd hmem' hn
    have hstep : brokerStep (brokerRun st events).1 (BrokerEvent.timeout i) =
        (⟨(brokerRun st events).1.pending.filter (· ≠ i)⟩, [Outcome.timedOut i]) := by
      simp [brokerStep, hmem']
    have hone : outcomesFor i [Outcome.timedOut i] = 1 := by
      simp [outcomesFor, Outcome.cid]
    simp [brokerRun, hstep, hout, hone, outcomesFor_append]
  · intro st' hnm
    simp [brokerStep, hnm]

/-- Witness for C1: ID `"c1"` pending; a response consumes it, a duplicate
late response is dropped. -/
theorem claim_C1_exactly_once_witness :
    ("c1" ∈ (BrokerState.mk ["c1"]).pending ∧
      idCount "c1" (BrokerState.mk ["c1"]).pending ≤ 1) ∧
    (outcomesFor "c1"
        (brokerRun ⟨["c1"]⟩ [BrokerEvent.response "c1", BrokerEvent.response "c1"]).2 ≤ 1 ∧
      (outcomesFor "c1"
          (brokerRun ⟨["c1"]⟩ [BrokerEvent.response "c1", BrokerEvent.response "c1"]).2 = 1 ↔
        "c1" ∉ (brokerRun ⟨["c1"]⟩
          [BrokerEvent.response "c1", BrokerEvent.response "c1"]).1.pending) ∧
      ("c1" ∈ (brokerRun ⟨["c1"]⟩
          [BrokerEvent.response "c1", BrokerEvent.response "c1"]).1.pending →
        outcomesFor "c1"
          (brokerRun ⟨["c1"]⟩ ([BrokerEvent.response "c1", BrokerEvent.response "c1"] ++
            [BrokerEvent.timeout "c1"])).2 = 1) ∧
      (∀ st' : BrokerState, "c1" ∉ st'.pending →
        brokerStep st' (BrokerEvent.response "c1") = (st', []))) :=
  ⟨⟨by decide, by decide⟩,
    claim_C1_exactly_once ⟨["c1"]⟩ "c1"
      [BrokerEvent.response "c1", BrokerEvent.response "c1"] (by decide) (by decide)⟩

/-- Claim C7. A tool invocation arriving while no extension is attached waits up
to `CONNECTION_WAIT_MS = 5000` ms for an attachment; if none occurs the
handler returns a visible error rather than submitting (queueing) a command,
and the message is `disconnectedMessage` when a client has ever attached
since startup and the distinct `notConnectedMessage` when none ever has. -/
theorem claim_C7_gateway_wait (st : GatewayState) (name : String)
    (hconn : st.connected = false) :
    CONNECTION_WAIT_MS = 5000 ∧
    (callToolHandler true st false name =
        .errorText (if st.hasEverConnected then disconnectedMessage else notConnectedMessage)) ∧
    callToolHandler true st false name ≠ .commandSubmitted ∧
    disconnectedMessage ≠ notConnectedMessage := by
  refine ⟨rfl, ?_, ?_, by decide⟩
  · simp [callToolHandler, hconn]
  · simp [callToolHandler, hconn]

/-- Witness for C7: once-connected and never-connected states, a known tool,
no attachment within the wait. -/
theorem claim_C7_gateway_wait_witness :
    ((GatewayState.mk false true).connected = false ∧
      CONNECTION_WAIT_MS = 5000 ∧
      (callToolHandler true ⟨false, true⟩ false "snapshot" =
          .errorText (if (GatewayState.mk false true).hasEverConnected then
            disconnectedMessage else notConnectedMessage)) ∧
      callToolHandler true ⟨false, true⟩ false "snapshot" ≠ .commandSubmitted ∧
      disconnectedMessage ≠ notConnectedMessage) :=
  ⟨rfl, claim_C7_gateway_wait ⟨false, true⟩ "snapshot" rfl⟩

theorem nativeDrain_irrel {μ : Type} (parse : List Nat → Option μ) :
    ∀ f₁ f₂ b, b.length ≤ f₁ → b.length ≤ f₂ →
      nativeDrain parse f₁ b = nativeDrain parse f₂ b := by
  intro f₁
  induction f₁ with
  | zero =>
    intro f₂ b h1 _
    have hb : b = [] := List.length_eq_zero.mp (Nat.le_zero.mp h1)
    subst hb
    cases f₂ <;> simp [nativeDrain]
  | succ f₁' ih =>
    intro f₂ b h1 h2
    cases f₂ with
    | zero =>
      have hb : b = [] := List.length_eq_zero.mp (Nat.le_zero.mp h2)
      subst hb
      simp [nativeDrain]
    | succ f₂' =>
      simp only [nativeDrain]
      by_cases h4 : 4 ≤ b.length
      · rw [if_pos h4, if_pos h4]
        by_cases hcap : NATIVE_MESSAGE_CAP < readUInt32LE b
        · rw [if_pos hcap, if_pos hcap]
        · rw [if_neg hcap, if_neg hcap]
          by_cases hfull : 4 + readUInt32LE b ≤ b.length
          · rw [if_pos hfull, if_pos hfull]
            rw [ih f₂' (b.drop (4 + readUInt32LE b))
                  (by simp only [List.length_drop]; omega)
                  (by simp only [List.length_drop]; omega)]
          · rw [if_neg hfull, if_neg hfull]
      · rw [if_neg h4, if_neg h4]

/-- Inversion: `readUInt32LE` inverts `writeUInt32LE` on values below `2^32`. -/
theorem readUInt32LE_write (n : Nat) (t : List Nat) (hn : n < 2 ^ 32) :
    readUInt32LE (writeUInt32LE n ++ t) = n := by
  simp only [writeUInt32LE, readUInt32LE, List.cons_append, List.nil_append,
    List.getD_cons_zero, List.getD_cons_succ]
  omega

/-- Draining a stream headed by a well-formed frame: the payload is parsed
and yielded (or skipped when unparseable), and draining continues behind it. -/
theorem nativeDrainLoop_encode_cons {μ : Type} (parse : List Nat → Option μ) (p r : List Nat)
    (hp : p.length ≤ NATIVE_MESSAGE_CAP) :
    nativeDrainLoop parse (encodeNativeFrame p ++ r) =
      match parse p with
      | some m =>
        ((m :: (nativeDrainLoop parse r).1), (nativeDrainLoop parse r).2.1,
          (nativeDrainLoop parse r).2.2)
      | none => nativeDrainLoop parse r := by
  have hcap32 : p.length < 2 ^ 32 := by
    have : NATIVE_MESSAGE_CAP < 2 ^ 32 := by norm_num [NATIVE_MESSAGE_CAP]
    omega
  have hassoc : encodeNativeFrame p ++ r = writeUInt32LE p.length ++ (p ++ r) := by
    simp [encodeNativeFrame]
  have hwlen : (writeUInt32LE p.length).length = 4 := by simp [writeUInt32LE]
  have hlen : (writeUInt32LE p.length ++ (p ++ r)).length = 4 + p.length + r.length := by
    simp only [List.length_append, hwlen]
    omega
  obtain ⟨n, hn⟩ : ∃ n, (writeUInt32LE p.length ++ (p ++ r)).length = n + 1 :=
    ⟨3 + p.length + r.length, by omega⟩
  have step : nativeDrainLoop parse (writeUInt32LE p.length ++ (p ++ r)) =
      nativeDrain parse (n + 1) (writeUInt32LE p.length ++ (p ++ r)) := by
    unfold nativeDrainLoop; rw [hn]
  rw [hassoc, step]
  simp only [nativeDrain]
  rw [if_pos (by omega), readUInt32LE_write p.length (p ++ r) hcap32,
      if_neg (by omega), if_pos (by omega)]
  have hdrop4 : (writeUInt32LE p.length ++ (p ++ r)).drop 4 = p ++ r := by
    rw [← hwlen, List.drop_left]
  have hdropfull : (writeUInt32LE p.length ++ (p ++ r)).drop (4 + p.length) = r := by
    rw [show writeUInt32LE p.length ++ (p ++ r) = (writeUInt32LE p.length ++ p) ++ r by simp,
        show 4 + p.length = (writeUInt32LE p.length ++ p).length by simp [hwlen],
        List.drop_left]
  rw [hdrop4, hdropfull, List.take_left,
      nativeDrain_irrel parse n r.length r (by omega) (le_refl _)]
  rfl

/-- Draining the concatenation of well-formed frames yields the parseable
payloads in order, skipping unparseable ones, with no error and no leftover. -/
theorem nativeDrainLoop_frames {μ : Type} (parse : List Nat → Option μ) (frames : List (List Nat))
    (h : ∀ f ∈ frames, f.length ≤ NATIVE_MESSAGE_CAP) :
    nativeDrainLoop parse ((frames.map encodeNativeFrame).flatten) =
      (frames.filterMap parse, [], none) := by
  induction frames with
  | nil => rfl
  | cons f fs ih =>
    have hf : f.length ≤ NATIVE_MESSAGE_CAP := h f (by simp)
    have hfs : ∀ g ∈ fs, g.length ≤ NATIVE_MESSAGE_CAP := fun g hg => h g (by simp [hg])
    rw [List.map_cons, List.flatten_cons, nativeDrainLoop_encode_cons parse f _ hf, ih hfs]
    cases hp : parse f <;> simp [List.filterMap_cons, hp]

/-- Claim C5, counterexample. The claim "for every framing error on stdin —
including a frame whose declared length exceeds the cap — the relay skips the
message and continues relaying subsequent messages, and does not terminate"
is false: a header declaring `1048577` bytes (over the 1 MB cap) aborts the
read loop, so a perfectly valid frame following it is never relayed and the
relay shuts down. -/
theorem claim_C5_counterexample :
    relayStdinLoop (fun b => some b) (fun _ => true)
        [[1, 0, 16, 0] ++ encodeNativeFrame [65]] = ([], true) ∧
    readNativeMessages (fun b => some b) [[1, 0, 16, 0] ++ encodeNativeFrame [65]] =
      ([], some "Native message length 1048577 exceeds 1MB limit") := by
  constructor <;> rfl

/-- Claim C5, amended. For a stdin stream of well-formed frames (declared
lengths within the 1 MB cap), a payload that fails to decode into a message
(`JSON.parse` failure, modelled by the parser returning `none`) is skipped
while every parseable message — before and after it — is still yielded, and
the read loop terminates without a framing error. -/
theorem claim_C5_parse_failures_skipped (parse : List Nat → Option (List Nat))
    (frames : List (List Nat))
    (hf : ∀ f ∈ frames, f.length ≤ NATIVE_MESSAGE_CAP) :
    readNativeMessages parse [(frames.map encodeNativeFrame).flatten] =
      (frames.filterMap parse, none) := by
  show readNativeChunks parse [] [(frames.map encodeNativeFrame).flatten] = _
  simp only [readNativeChunks, List.nil_append]
  rw [nativeDrainLoop_frames parse frames hf]
  simp [readNativeChunks]

/-- Witness for the amended C5: the payload `[0]` fails to parse and is
skipped; the later payload `[65]` is still delivered. -/
theorem claim_C5_parse_failures_skipped_witness :
    (∀ f ∈ ([[0], [65]] : List (List Nat)), f.length ≤ NATIVE_MESSAGE_CAP) ∧
      readNativeMessages (fun b => if b = [0] then none else some b)
          [(([[0], [65]] : List (List Nat)).map encodeNativeFrame).flatten] =
        (([[0], [65]] : List (List Nat)).filterMap
          (fun b => if b = [0] then none else some b), none) :=
  ⟨by decide,
    claim_C5_parse_failures_skipped (fun b => if b = [0] then none else some b)
      [[0], [65]] (by decide)⟩

theorem lookupRef_deleteRef {α : Type} (m : List (String × α)) (r : String) :
    lookupRef (deleteRef m r) r = none := by
  induction m with
  | nil => rfl
  | cons p rest ih =>
    by_cases hp : p.1 = r
    · simp [deleteRef, List.filter_cons, hp, lookupRef]
    · simp [deleteRef, List.filter_cons, hp, lookupRef, List.find?]

/-- The two `resolveRef` error messages are distinct for every ref. -/
theorem refMessages_distinct (r : String) :
    refStaleMessage r ≠ refNotFoundMessage r := by
  intro h
  have hl := congrArg String.length h
  simp only [refStaleMessage, refNotFoundMessage, String.length_append] at hl
  have h1 : ("\" not found. The page may have changed since the last snapshot. Take a new snapshot and use updated refs." : String).length = 105 := by decide
  have h2 : ("\" is stale — the element is no longer in the DOM. Take a new snapshot." : String).length = 70 := by decide
  omega

/-- The option matched by `selectFirstMatch` is the first option, in document
order, whose trimmed text content or value equals the requested value. -/
theorem selectFirstMatch_eq_find (v : String) (opts : List OptionEl) :
    (selectFirstMatch v opts).map (fun pr => pr.2) =
      opts.find? (fun o => jsTrim o.textContent = v || o.value = v) := by
  induction opts with
  | nil => rfl
  | cons o os ih =>
    by_cases h : (jsTrim o.textContent = v || o.value = v : Bool)
    · simp [selectFirstMatch, List.find?, h]
    · simp only [selectFirstMatch, List.find?, h]
      rw [if_neg (by simp only [Bool.not_eq_true] at h ⊢)]
      cases hrec : selectFirstMatch v os with
      | none =>
        rw [hrec] at ih
        simpa using ih
      | some pr =>
        rw [hrec] at ih
        obtain ⟨os', m⟩ := pr
        simpa using ih

/-- Failure case: `selectFirstMatch` fails exactly when no option matches. -/
theorem selectFirstMatch_none_iff (v : String) (opts : List OptionEl) :
    selectFirstMatch v opts = none ↔
      ∀ o ∈ opts, ¬(jsTrim o.textContent = v ∨ o.value = v) := by
  have h := selectFirstMatch_eq_find v opts
  constructor
  · intro hn
    rw [hn] at h
    intro o ho hmatch
    have := List.find?_eq_none.mp h.symm o ho
    simp only [Bool.or_eq_true, decide_eq_true_eq] at this
    exact this (by tauto)
  · intro hall
    cases hm : selectFirstMatch v opts with
    | none => rfl
    | some pr =>
      rw [hm] at h
      obtain ⟨os', m⟩ := pr
      have hfind : opts.find? (fun o => jsTrim o.textContent = v || o.value = v) = some m :=
        h.symm
      have hmem := List.find?_some hfind
      have hmm := List.mem_of_find?_eq_some hfind
      simp only [Bool.or_eq_true, decide_eq_true_eq] at hmem
      exact absurd hmem (by simpa using hall m hmm)

/-- Deselecting all options does not change which options match. -/
theorem selectFirstMatch_deselect_none (v : String) (opts : List OptionEl) :
    (selectFirstMatch v (opts.map (fun o => { o with selected := false })) = none) ↔
      selectFirstMatch v opts = none := by
  rw [selectFirstMatch_none_iff, selectFirstMatch_none_iff]
  constructor
  · intro h o ho
    exact h { o with selected := false } (List.mem_map_of_mem _ ho)
  · intro h o ho
    obtain ⟨o', ho', rfl⟩ := List.mem_map.mp ho
    exact h o' ho'

/-- Claim C2. For a reference `r` present in the reference map (`lookupRef`
finds `el`): `resolveRef` returns the element exactly when the backing
element is still contained in the document; when containment fails, the
entry is removed from the map and the distinct stale-reference error is
raised; and the builder produces the same tree and the same (fresh)
reference map from any prior state — the map is reset before the first
reference is assigned, so no binding of a prior snapshot survives into the
new map except by being re-assigned by the fresh build. -/
theorem claim_C2_ref_validity {α : Type} (m : List (String × α))
    (contains : α → Bool) (r : String) (el : α)
    (hfind : lookupRef m r = some el) :
    ((resolveRef m contains r).1 = .ok el ↔ contains el = true) ∧
    (contains el = false →
      (resolveRef m contains r).1 = .error (refStaleMessage r) ∧
      lookupRef (resolveRef m contains r).2 r = none ∧
      refStaleMessage r ≠ refNotFoundMessage r) ∧
    (∀ (env : DocEnv) (doc : DomDocument) (st : BuildState),
      buildAccessibilityTree env doc st = buildAccessibilityTree env doc ⟨[], 0, 0⟩) := by
  refine ⟨?_, ?_, ?_⟩
  · cases hc : contains el with
    | true => simp [resolveRef, hfind, hc]
    | false =>
      simp only [resolveRef, hfind, hc, if_false]
      constructor
      · intro h
        exact absurd h (by simp)
      · intro h
        exact absurd h (by simp)
  · intro hc
    refine ⟨by simp [resolveRef, hfind, hc], ?_, refMessages_distinct r⟩
    simp only [resolveRef, hfind, hc, if_false]
    exact lookupRef_deleteRef m r
  · intro env doc st
    rfl

/-- Witness for C2: a one-entry map whose element has left the document. -/
theorem claim_C2_ref_validity_witness :
    lookupRef [("e0", 5)] "e0" = some 5 ∧
    (((resolveRef [("e0", 5)] (fun _ => false) "e0").1 = .ok 5 ↔
        (fun (_ : Nat) => false) 5 = true) ∧
      ((fun (_ : Nat) => false) 5 = false →
        (resolveRef [("e0", 5)] (fun _ => false) "e0").1 =
          .error (refStaleMessage "e0") ∧
        lookupRef (resolveRef [("e0", 5)] (fun _ => false) "e0").2 "e0" = none ∧
        refStaleMessage "e0" ≠ refNotFoundMessage "e0") ∧
      (∀ (env : DocEnv) (doc : DomDocument) (st : BuildState),
        buildAccessibilityTree env doc st = buildAccessibilityTree env doc ⟨[], 0, 0⟩)) :=
  ⟨by decide, claim_C2_ref_validity [("e0", 5)] (fun _ => false) "e0" 5 (by decide)⟩

/-- Claim C9. Once `resolveRef` has failed with the stale error for a ref whose
element left the document, the entry is deleted, so every subsequent
`resolveRef` on the resulting map — under any containment state — fails with
the distinct "not found" error rather than the "stale" error. -/
theorem claim_C9_stale_then_not_found {α : Type} (m : List (String × α))
    (contains contains' : α → Bool) (r : String) (el : α)
    (hfind : lookupRef m r = some el) (hgone : contains el = false) :
    (resolveRef m contains r).1 = .error (refStaleMessage r) ∧
    lookupRef (resolveRef m contains r).2 r = none ∧
    (resolveRef (resolveRef m contains r).2 contains' r).1 =
      .error (refNotFoundMessage r) ∧
    refStaleMessage r ≠ refNotFoundMessage r := by
  have h1 : resolveRef m contains r = (.error (refStaleMessage r), deleteRef m r) := by
    simp [resolveRef, hfind, hgone]
  refine ⟨by rw [h1], ?_, ?_, refMessages_distinct r⟩
  · rw [h1]
    exact lookupRef_deleteRef m r
  · rw [h1]
    simp [resolveRef, lookupRef_deleteRef m r]

/-- Witness for C9 at a concrete one-entry map. -/
theorem claim_C9_stale_then_not_found_witness :
    (lookupRef [("e0", 5)] "e0" = some 5 ∧ (fun (_ : Nat) => false) 5 = false) ∧
    ((resolveRef [("e0", 5)] (fun _ => false) "e0").1 =
        .error (refStaleMessage "e0") ∧
      lookupRef (resolveRef [("e0", 5)] (fun _ => false) "e0").2 "e0" = none ∧
      (resolveRef (resolveRef [("e0", 5)] (fun _ => false) "e0").2
          (fun _ => true) "e0").1 = .error (refNotFoundMessage "e0") ∧
      refStaleMessage "e0" ≠ refNotFoundMessage "e0") :=
  ⟨⟨by decide, by decide⟩,
    claim_C9_stale_then_not_found [("e0", 5)] (fun _ => false) (fun _ => true)
      "e0" 5 (by decide) (by decide)⟩

/-- Claim C10. `handleWaitFor` treats `time = 0` as absent: the parameters
behave exactly as if `time` were omitted; with neither `text` nor `textGone`
the call is rejected with the validation error instead of resolving
immediately; and with a (non-empty) `text` or `textGone` the overall timeout
falls back to the default 30 000 ms instead of a zero-length budget. -/
theorem claim_C10_wait_for_time_zero :
    (∀ t g, handleWaitFor ⟨t, g, some 0⟩ = handleWaitFor ⟨t, g, none⟩) ∧
    handleWaitFor ⟨none, none, some 0⟩ = .error waitForValidationMessage ∧
    (∀ s : String, s ≠ "" →
      handleWaitFor ⟨some s, none, some 0⟩ =
        .ok (.observe s true 30000) ∧
      handleWaitFor ⟨none, some s, some 0⟩ =
        .ok (.observe s false 30000)) := by
  refine ⟨fun t g => rfl, rfl, ?_⟩
  intro s hs
  constructor <;>
    simp [handleWaitFor, truthyStr, truthyNum, hs]

/-- Witness for C10 at `text = "Hello"` / `textGone = "Hello"`. -/
theorem claim_C10_wait_for_time_zero_witness :
    ("Hello" ≠ "" ∧
      handleWaitFor ⟨some "Hello", none, some 0⟩ =
        .ok (.observe "Hello" true 30000) ∧
      handleWaitFor ⟨none, some "Hello", some 0⟩ =
        .ok (.observe "Hello" false 30000)) ∧
    handleWaitFor ⟨none, none, some 0⟩ = .error waitForValidationMessage :=
  ⟨⟨by decide, claim_C10_wait_for_time_zero.2.2 "Hello" (by decide)⟩,
    claim_C10_wait_for_time_zero.2.1⟩

/-- Claim C6, counterexample. The claim mandates matching by trimmed text
content across all options first, falling back to option values only when no
text matches.  The code instead scans the options once, taking the first
option whose text *or* value matches: with options `(text "a", value "b")`
and `(text "b", value "c")` and requested value `"b"`, an option with
matching text exists, yet the handler selects the first option (value match)
and reports selected text `"a"`, while the claim's text-first rule picks the
second option. -/
theorem claim_C6_counterexample :
    (∃ o ∈ (SelectEl.mk false [⟨"a", "b", false⟩, ⟨"b", "c", false⟩]).options,
      jsTrim o.textContent = "b") ∧
    handleSelectOption "e0" ⟨false, [⟨"a", "b", false⟩, ⟨"b", "c", false⟩]⟩ ["b"] =
      .ok (⟨false, [⟨"a", "b", true⟩, ⟨"b", "c", false⟩]⟩, ["a"], 1) ∧
    findTextFirstSpec [⟨"a", "b", false⟩, ⟨"b", "c", false⟩] "b" =
      some ⟨"b", "c", false⟩ := by
  refine ⟨⟨⟨"b", "c", false⟩, by simp, by decide⟩, rfl, by decide⟩

/-- Claim C6, amended. For a `select_option` command on a `SELECT` element:
each requested value is matched by scanning the options once in document
order, selecting the first option whose trimmed text content *or* option
value equals the requested value (a per-option disjunction, not text-first
priority across all options); a value matching no option raises the distinct
error naming the value; for a multi-select all options are deselected before
any selection; and exactly one change event is dispatched, after all values
are processed (none on error). -/
theorem claim_C6_select_option (ref : String) :
    (∀ el values out, handleSelectOption ref el values = .ok out → out.2.2 = 1) ∧
    (∀ v opts, (selectFirstMatch v opts).map (fun pr => pr.2) =
      opts.find? (fun o => jsTrim o.textContent = v || o.value = v)) ∧
    (∀ el v vs, (∀ o ∈ el.options, ¬(jsTrim o.textContent = v ∨ o.value = v)) →
      handleSelectOption ref el (v :: vs) = .error (optionNotFoundMessage v ref)) ∧
    (∀ opts : List OptionEl,
      handleSelectOption ref ⟨true, opts⟩ [] =
        .ok (⟨true, opts.map (fun o => { o with selected := false })⟩, [], 1) ∧
      handleSelectOption ref ⟨false, opts⟩ [] = .ok (⟨false, opts⟩, [], 1)) := by
  refine ⟨?_, fun v opts => selectFirstMatch_eq_find v opts, ?_, fun opts => ⟨rfl, rfl⟩⟩
  · intro el values out h
    simp only [handleSelectOption] at h
    cases hsl : selectLoop ref
        (if el.multiple then el.options.map (fun o => { o with selected := false })
         else el.options) values with
    | ok p =>
      rw [hsl] at h
      obtain ⟨opts, sel⟩ := p
      simp only [Except.ok.injEq] at h
      rw [← h]
    | error e =>
      rw [hsl] at h
      exact absurd h (by simp)
  · intro el v vs hall
    have hnone : selectFirstMatch v el.options = none :=
      (selectFirstMatch_none_iff v el.options).mpr hall
    simp only [handleSelectOption]
    by_cases hm : el.multiple
    · rw [if_pos hm]
      have : selectFirstMatch v (el.options.map (fun o => { o with selected := false })) =
          none := (selectFirstMatch_deselect_none v el.options).mpr hnone
      simp [selectLoop, this]
    · rw [if_neg hm]
      simp [selectLoop, hnone]

/-- Witness for the amended C6: a multi-select whose single option matches
neither by text nor by value. -/
theorem claim_C6_select_option_witness :
    (∀ o ∈ (SelectEl.mk true [⟨"x", "y", true⟩]).options,
      ¬(jsTrim o.textContent = "z" ∨ o.value = "z")) ∧
    handleSelectOption "e1" ⟨true, [⟨"x", "y", true⟩]⟩ ["z"] =
      .error (optionNotFoundMessage "z" "e1") ∧
    handleSelectOption "e1" ⟨true, [⟨"x", "y", true⟩]⟩ [] =
      .ok (⟨true, [⟨"x", "y", false⟩]⟩, [], 1) :=
  ⟨by decide,
    (claim_C6_select_option "e1").2.2.1 ⟨true, [⟨"x", "y", true⟩]⟩ "z" [] (by decide),
    ((claim_C6_select_option "e1").2.2.2 [⟨"x", "y", true⟩]).1⟩

theorem chainElem_eq (m : Nat) : chainElem m = .elem groupCore none (chainTail m) := by
  cases m <;> rfl

/-- The depth-cap branch of `buildNode`, as a full equation. -/
theorem buildNode_deep_drop (env : DocEnv) (c : ElemCore) (lbl : Option DomNode)
    (children : List DomNode) (depth : Nat) (st : BuildState)
    (hd : depth > 100) (hc : st.nodeCount < MAX_NODES) :
    buildNode env (.elem c lbl children) depth st =
      (none, { st with nodeCount := st.nodeCount + 1 }) := by
  simp [buildNode, show ¬st.nodeCount ≥ MAX_NODES by omega, hd]

theorem ANode_depth_chain (k : Nat) : (chainANode k).depth = k + 1 := by
  induction k with
  | zero => rfl
  | succ k ih =>
    simp [chainANode, ANode.depth, depthList, ih]
    omega

theorem flatten_chainANode (k : Nat) :
    flattenGenericChildren [chainANode k] = [chainANode k] := by
  cases k <;> simp [flattenGenericChildren, flattenGenericOne, chainANode]

/-- The kept part of a long chain: from depth `100 - k` (for `k ≤ 100`), a
chain longer than `k` yields the nested node of the `k + 1` kept levels; the
element behind the cap is still visited (it counts two extra nodes in
total), and no references are assigned. -/
theorem buildNode_chain_keep :
    ∀ k, k ≤ 100 → ∀ n st, k + 1 ≤ n → st.nodeCount + (k + 2) ≤ MAX_NODES →
      buildNode env₀ (chainElem n) (100 - k) st =
        (some (chainANode k), { st with nodeCount := st.nodeCount + (k + 2) }) := by
  intro k
  have hhid : isHidden groupCore = false := rfl
  have hskip : SKIP_TAGS.contains groupCore.tagName = false := rfl
  have hrole : getRole groupCore = "group" := rfl
  have hint : isInteractive groupCore = false := rfl
  have hname : ∀ lbl ch, getAccessibleName env₀ (.elem groupCore lbl ch) = "L" :=
    fun _ _ => rfl
  have hval : getValue groupCore = none := rfl
  have hstate : getElementState env₀ groupCore = {} := rfl
  induction k with
  | zero =>
    intro _ n st hn hcnt
    obtain ⟨m, rfl⟩ : ∃ m, n = m + 1 := ⟨n - 1, by omega⟩
    rw [show chainElem (m + 1) = .elem groupCore none [chainElem m] from rfl,
        show (100 : Nat) - 0 = 100 from rfl]
    rw [chainElem_eq m]
    simp only [buildNode, buildChildren,
      show ¬st.nodeCount ≥ MAX_NODES by omega,
      show ¬(100 : Nat) > 100 by omega,
      hhid, hskip, hrole, hint, hname, hval, hstate]
    simp only [show ¬MAX_NODES ≤ st.nodeCount + 1 by omega]
    simp [chainANode, flattenGenericChildren, BuildState.mk.injEq]
  | succ k ih =>
    intro hk n st hn hcnt
    obtain ⟨m, rfl⟩ : ∃ m, n = m + 1 := ⟨n - 1, by omega⟩
    have hih := ih (by omega) m { st with nodeCount := st.nodeCount + 1 }
      (by omega) (by show st.nodeCount + 1 + (k + 2) ≤ MAX_NODES; omega)
    rw [show chainElem (m + 1) = .elem groupCore none [chainElem m] from rfl]
    simp only [buildNode, buildChildren,
      show ¬st.nodeCount ≥ MAX_NODES by omega,
      show ¬100 - (k + 1) > 100 by omega,
      show 100 - (k + 1) + 1 = 100 - k by omega,
      hhid, hskip, hrole, hint, hname, hval, hstate, hih]
    rw [chainElem_eq m] at hih
    rw [chainElem_eq m]
    simp [buildChildren, hih, chainANode, flatten_chainANode, BuildState.mk.injEq]
    omega

/-- Claim C8. `buildNode` drops every element whose depth parameter exceeds
100 — the builder starts the element children of `body` at depth 0 — without
touching the reference map, while elements within the cap are processed
normally: a chain of 121 nested named `role="group"` elements yields a tree
of depth exactly 101 (depths 0 through 100 kept, deeper levels dropped). -/
theorem claim_C8_depth_cap :
    (∀ (env : DocEnv) (c : ElemCore) (lbl : Option DomNode)
        (children : List DomNode) (depth : Nat) (st : BuildState),
      depth > 100 →
        (buildNode env (.elem c lbl children) depth st).1 = none ∧
        (buildNode env (.elem c lbl children) depth st).2.refMap = st.refMap) ∧
    (buildNode env₀ (chainElem 120) 0 ⟨[], 0, 0⟩).1.map ANode.depth = some 101 := by
  constructor
  · intro env c lbl children depth st hdepth
    by_cases hcnt : st.nodeCount ≥ MAX_NODES
    · constructor <;> simp [buildNode, hcnt]
    · constructor <;> simp [buildNode, hcnt, hdepth]
  · have h := buildNode_chain_keep 100 (by omega) 120 ⟨[], 0, 0⟩ (by omega)
      (by simp [MAX_NODES])
    rw [show (100 : Nat) - 100 = 0 from rfl] at h
    rw [h]
    simp [ANode_depth_chain]

/-- Witness for C8: the depth-cap branch at the concrete depth 101. -/
theorem claim_C8_depth_cap_witness :
    (101 > 100) ∧
    (buildNode env₀ (DomNode.elem groupCore none []) 101 ⟨[], 0, 0⟩).1 = none ∧
    (buildNode env₀ (DomNode.elem groupCore none []) 101 ⟨[], 0, 0⟩).2.refMap = [] :=
  ⟨by decide,
    (claim_C8_depth_cap.1 env₀ groupCore none [] 101 ⟨[], 0, 0⟩ (by decide)).1,
    (claim_C8_depth_cap.1 env₀ groupCore none [] 101 ⟨[], 0, 0⟩ (by decide)).2⟩

end Agentfox

